import Mathlib

/-!
# Connection pool and find translation of the mongo-c-driver fork

Shallow embedding of `src/libmongoc/src/mongoc/mongoc-connection-pool.c`
(`mongoc_checkout_connection`, `mongoc_checkin_connection`,
`mongoc_connection_pool_new`) and of the find translation exercised by
`tests/test-mongoc-collection-find.c`.

Conventions of the embedding.
* The intrusive linked list `connection_pool->head` is a Lean list of the
  `data` pointers of its nodes, first node first.
* The out-parameter `bson_error_t *error` is threaded explicitly.
* The collaborators that are only declared in headers (topology lookup, host
  lookup, TCP connect) are fields of `checkout_env`; the allocator address of
  the new server stream is a field as well.
* Every call also yields the ordered list of the synchronisation and memory
  events it performs (`pool_event`).
* `mongoc_cond_wait` releases the mutex, so the pool a waiter sees after a
  wake-up is whatever the other threads left: the list `wakeups` gives these
  pools in order.  When the list is used up the call is still inside
  `mongoc_cond_wait` (`checkout_result.waiting`).
-/

namespace Mongoc

/-! ## Data model of the pool -/

/-- The error slot filled in by the collaborators; only `message` is read. -/
structure bson_error_t where
  message : String
deriving DecidableEq, Repr

/-- A host entry of the topology. -/
structure mongoc_host_list_t where
  host : String
  port : Nat
deriving DecidableEq, Repr

/-- A connected transport, named by its descriptor. -/
structure mongoc_stream_t where
  fd : Nat
deriving DecidableEq, Repr

/-- A server description; `id` is the server identity read by
`mongoc_connection_pool_new`. -/
structure mongoc_server_description_t where
  id : Nat
  host : mongoc_host_list_t
  max_wire_version : Int
deriving DecidableEq, Repr

/-- The topology description handed to the server-stream constructor. -/
structure mongoc_topology_description_t where
  servers : List mongoc_server_description_t
deriving DecidableEq, Repr

/-- The topology fields read by the pool. -/
structure mongoc_topology_t where
  description : mongoc_topology_description_t
  max_connection_pool_size : Nat
  connect_timeout_msec : Int
deriving DecidableEq, Repr

/-- A server stream (the pooled connection).  `addr` is the address of the
allocated object: two pointers are the same connection iff the addresses are
equal. -/
structure mongoc_server_stream_t where
  addr : Nat
  sd : Option mongoc_server_description_t
  stream : mongoc_stream_t
  server_id : Nat
deriving DecidableEq, Repr

/-- The pool object: `head` is the idle list, `size` the number of connections
created so far. -/
structure mongoc_connection_pool_t where
  head : List mongoc_server_stream_t
  size : Nat
  server_id : Nat
  topology : mongoc_topology_t
deriving DecidableEq, Repr

/-- Events performed by the pool functions, in program order. -/
inductive pool_event where
  | mutex_lock
  | mutex_unlock
  | read_server_id
  | read_topology
  | server_by_id (server_id : Nat)
  | read_head
  | write_head
  | free_node
  | malloc_node
  | read_size
  | write_size
  | host_by_id (server_id : Nat)
  | connect_tcp (timeout_msec : Int) (host : Option mongoc_host_list_t)
  | stderr_write (message : String)
  | abort
  | server_stream_new
  | cond_wait
  | cond_signal
deriving DecidableEq, Repr

/-- Collaborators of one checkout call and the values they supply.  Each
lookup takes the current error slot and returns its result (`none` for a NULL
pointer) with the error slot as it leaves it. -/
structure checkout_env where
  mongoc_topology_description_server_by_id :
    mongoc_topology_description_t → Nat → bson_error_t →
      Option mongoc_server_description_t × bson_error_t
  _mongoc_topology_host_by_id :
    mongoc_topology_t → Nat → bson_error_t → Option mongoc_host_list_t × bson_error_t
  mongoc_client_connect_tcp :
    Int → Option mongoc_host_list_t → bson_error_t → Option mongoc_stream_t × bson_error_t
  alloc : Nat
  error : bson_error_t

/-- How a checkout call ends: it returns a server stream, it aborts the process
after writing to stderr, or it is still blocked in `mongoc_cond_wait`. -/
inductive checkout_result where
  | returned (server_stream : mongoc_server_stream_t)
  | aborted (stderr : String)
  | waiting
deriving DecidableEq, Repr

/-- Outcome of a checkout call: how it ends, the pool as left by the call, the
error slot and the events performed. -/
structure checkout_outcome where
  result : checkout_result
  pool : mongoc_connection_pool_t
  error : bson_error_t
  trace : List pool_event
deriving DecidableEq, Repr

/-- Outcome of a checkin call (the function returns void). -/
structure checkin_outcome where
  pool : mongoc_connection_pool_t
  trace : List pool_event
deriving DecidableEq, Repr

/-! ## The pool functions -/

/-- Modelled from the spec: `mongoc_server_stream_new` is only declared in
a header, its body is missing; the spec has it "wrap" the transport "as a Connection".  The
new object lives at the address given by the allocator and records the server
description and the transport; `server_id` is filled in by the caller. -/
def mongoc_server_stream_new (addr : Nat) (_td : mongoc_topology_description_t)
    (sd : Option mongoc_server_description_t) (stream : mongoc_stream_t) :
    mongoc_server_stream_t :=
  { addr := addr, sd := sd, stream := stream, server_id := 0 }

/-- Put events in front of the trace of an outcome. -/
def checkout_outcome.after (evs : List pool_event) (o : checkout_outcome) : checkout_outcome :=
  { o with trace := evs ++ o.trace }

/-- The code from the label `again:` to the end of
`mongoc_checkout_connection`, with the locals `topology`, `server_id`, `sd`
and the error slot as they are at the label. -/
def checkout_again (env : checkout_env) (topology : mongoc_topology_t) (server_id : Nat)
    (sd : Option mongoc_server_description_t) (error : bson_error_t) :
    List mongoc_connection_pool_t → mongoc_connection_pool_t → checkout_outcome
  | wakeups, connection_pool =>
    match connection_pool.head with
    | temp :: next =>
      { result := .returned temp
        pool := { connection_pool with head := next }
        error := error
        trace := [.read_head, .write_head, .free_node, .mutex_unlock] }
    | [] =>
      if connection_pool.size < topology.max_connection_pool_size then
        let pool1 := { connection_pool with size := connection_pool.size + 1 }
        let host := env._mongoc_topology_host_by_id topology server_id error
        let stream :=
          env.mongoc_client_connect_tcp topology.connect_timeout_msec host.1 host.2
        let pre : List pool_event :=
          [.read_head, .read_size, .write_size, .mutex_unlock, .host_by_id server_id,
           .connect_tcp topology.connect_timeout_msec host.1]
        match stream.1 with
        | none =>
          { result := .aborted stream.2.message
            pool := pool1
            error := stream.2
            trace := pre ++ [.stderr_write stream.2.message, .abort] }
        | some s =>
          { result := .returned
              { mongoc_server_stream_new env.alloc topology.description sd s with
                server_id := server_id }
            pool := pool1
            error := stream.2
            trace := pre ++ [.server_stream_new, .mutex_lock, .mutex_unlock] }
      else
        match wakeups with
        | [] =>
          { result := .waiting
            pool := connection_pool
            error := error
            trace := [.read_head, .read_size, .cond_wait] }
        | woken :: rest =>
          (checkout_again env topology server_id sd error rest woken).after
            [.read_head, .read_size, .cond_wait]

/-- The function `mongoc_checkout_connection`. -/
def mongoc_checkout_connection (env : checkout_env) (wakeups : List mongoc_connection_pool_t)
    (connection_pool : mongoc_connection_pool_t) : checkout_outcome :=
  let server_id := connection_pool.server_id
  let topology := connection_pool.topology
  let sd := env.mongoc_topology_description_server_by_id topology.description server_id env.error
  (checkout_again env topology server_id sd.1 sd.2 wakeups connection_pool).after
    [.mutex_lock, .read_server_id, .read_topology, .server_by_id server_id]

/-- The function `mongoc_checkin_connection`: `LL_PREPEND` makes the new node
the head of the list. -/
def mongoc_checkin_connection (connection_pool : mongoc_connection_pool_t)
    (server_stream : mongoc_server_stream_t) : checkin_outcome :=
  { pool := { connection_pool with head := server_stream :: connection_pool.head }
    trace := [.malloc_node, .mutex_lock, .read_head, .write_head, .cond_signal, .mutex_unlock] }

/-- The function `mongoc_connection_pool_new`: `bson_malloc0` zeroes `head` and
`size`. -/
def mongoc_connection_pool_new (topology : mongoc_topology_t)
    (sd : mongoc_server_description_t) : mongoc_connection_pool_t :=
  { head := [], size := 0, server_id := sd.id, topology := topology }

/-! ## Callers holding connections -/

/-- The pool together with the connections currently held by callers, each
paired with the caller that holds it. -/
structure pool_system where
  pool : mongoc_connection_pool_t
  held : List (Nat × mongoc_server_stream_t)
deriving DecidableEq, Repr

/-- Addresses of the live server streams: the idle ones and the held ones. -/
def pool_system.live (s : pool_system) : List Nat :=
  s.pool.head.map (fun c => c.addr) ++ s.held.map (fun h => h.2.addr)

/-- A call made on the pool by a caller.  A checkout comes with its
collaborators and with the number of spurious wake-ups it would get while
waiting. -/
inductive pool_call where
  | checkout (caller : Nat) (env : checkout_env) (spurious : Nat)
  | checkin (caller : Nat) (server_stream : mongoc_server_stream_t)

/-- A system on a newly created pool: nothing is held. -/
def pool_system.new (topology : mongoc_topology_t) (sd : mongoc_server_description_t) :
    pool_system :=
  { pool := mongoc_connection_pool_new topology sd, held := [] }

/-- A checkout by `caller` that returns: the allocator gives an address that
is not live, no other call runs meanwhile (every wake-up finds the pool as it
was), and the returned stream is then held by `caller`.  A call that aborts
the process or stays blocked has no next state. -/
def pool_system.checkout (s : pool_system) (caller : Nat) (env : checkout_env)
    (spurious : Nat) : Option (mongoc_server_stream_t × pool_system) :=
  if env.alloc ∈ s.live then none
  else
    let o := mongoc_checkout_connection env (List.replicate spurious s.pool) s.pool
    match o.result with
    | .returned c => some (c, { pool := o.pool, held := (caller, c) :: s.held })
    | _ => none

/-- A checkin by `caller` of a stream it currently holds; the caller gives the
stream up. -/
def pool_system.checkin (s : pool_system) (caller : Nat) (c : mongoc_server_stream_t) :
    Option pool_system :=
  if (caller, c) ∈ s.held then
    some { pool := (mongoc_checkin_connection s.pool c).pool, held := s.held.erase (caller, c) }
  else none

/-- One call on the system. -/
def pool_system.step (s : pool_system) : pool_call → Option pool_system
  | .checkout caller env spurious => (s.checkout caller env spurious).map (fun r => r.2)
  | .checkin caller c => s.checkin caller c

/-- A sequence of calls, each one returning before the next starts. -/
def pool_system.run (s : pool_system) : List pool_call → Option pool_system
  | [] => some s
  | call :: calls =>
    match s.step call with
    | none => none
    | some s1 => s1.run calls

/-! ## Find translation

The translator itself (`mongoc-cursor.c`) is not part of this development;
only its test file is.  The definitions below follow the specification text
(sections 3, 4.2, 4.3 and 6) and the expectations of
`tests/test-mongoc-collection-find.c`. -/

/-- BSON values that occur in find requests. -/
inductive bson_value where
  | int32 (v : Int)
  | int64 (v : Int)
  | bool (v : Bool)
  | utf8 (v : String)
  | document (fields : List (String × bson_value))

/-- A BSON document: its fields in order. -/
abbrev bson_t := List (String × bson_value)

/-- Whether a document has a top-level field of the given name. -/
def bson_has_field (doc : bson_t) (key : String) : Bool :=
  doc.any (fun f => f.1 == key)

/-- Modelled from the spec: the bits of the legacy opcode's 32-bit flag
bitmask, named as in `test_query_flags`; the header that declares
`mongoc_query_flags_t` is missing, the values are those of the wire
protocol. -/
def MONGOC_QUERY_NONE : Nat := 0

/-- Modelled from the spec: wire flag `tailable`. -/
def MONGOC_QUERY_TAILABLE_CURSOR : Nat := 2

/-- Modelled from the spec: wire flag "slave acceptable". -/
def MONGOC_QUERY_SLAVE_OK : Nat := 4

/-- Modelled from the spec: wire flag `oplogReplay`. -/
def MONGOC_QUERY_OPLOG_REPLAY : Nat := 8

/-- Modelled from the spec: wire flag `noCursorTimeout`. -/
def MONGOC_QUERY_NO_CURSOR_TIMEOUT : Nat := 16

/-- Modelled from the spec: wire flag `awaitData`. -/
def MONGOC_QUERY_AWAIT_DATA : Nat := 32

/-- Modelled from the spec: wire flag `exhaust`, which has no command field. -/
def MONGOC_QUERY_EXHAUST : Nat := 64

/-- Modelled from the spec: wire flag `partial`. -/
def MONGOC_QUERY_PARTIAL : Nat := 128

/-- Modelled from the spec: the Query Specification of section 3, with the
arguments of `mongoc_collection_find` as the tests pass them. -/
structure find_args where
  flags : Nat
  skip : Nat
  limit : Int
  batch_size : Nat
  query : bson_t
  fields : Option bson_t

/-- Modelled from the spec: the Wire Request of section 3, a tagged union of
the legacy opcode message and the command message. -/
inductive wire_request where
  | LegacyQuery (ns : String) (flags : Nat) (skip : Nat) (number_to_return : Int)
      (query_document : bson_t) (projection_document : Option bson_t)
  | CommandQuery (database : String) (flags : Nat) (command_document : bson_t)

/-- Modelled from the spec: the two protocols of the Capability Selector. -/
inductive protocol where
  | LegacyOpcode
  | Command
deriving DecidableEq, Repr

/-- Modelled from the spec: the error taxonomy of section 7, as far as the
translator raises it. -/
inductive translate_error where
  | ProtocolMismatchError
deriving DecidableEq, Repr

/-- Modelled from the spec: the wire version at which the find command became
available; the tests run the legacy form at 3 and the command form at 4. -/
def WIRE_VERSION_FIND_CMD : Int := 4

/-- Modelled from the spec: the Capability Selector of section 4.2, a pure
function of the negotiated maximum wire version against the threshold. -/
def capability_select (max_wire_version : Int) : protocol :=
  if WIRE_VERSION_FIND_CMD ≤ max_wire_version then .Command else .LegacyOpcode

/-- Modelled from the spec: the mapping table of section 4.3, legacy modifier
to command field.  `$showRecordId` is the row exercised by
`test_bool_modifiers`. -/
def query_opt_table : List (String × String) :=
  [("$query", "filter"), ("$orderby", "sort"), ("$comment", "comment"), ("$hint", "hint"),
   ("$min", "min"), ("$max", "max"), ("$showDiskLoc", "showRecordId"),
   ("$showRecordId", "showRecordId"), ("$returnKey", "returnKey"),
   ("$snapshot", "snapshot"), ("$maxScan", "maxScan"), ("$maxTimeMS", "maxTimeMS")]

/-- Modelled from the spec: the command field of a legacy modifier, looked up
in the mapping table.  A name outside the table has no entry. -/
def translate_query_opt (query_field : String) : Option String :=
  query_opt_table.lookup query_field

/-- Modelled from the spec: one top-level field of a `$query`-wrapped
document in command form: a table row is renamed, any other field is passed
through verbatim; the value is kept. -/
def translate_query_field (f : String × bson_value) : String × bson_value :=
  match translate_query_opt f.1 with
  | some cmd_field => (cmd_field, f.2)
  | none => f

/-- Modelled from the spec: the filter part of the command document.  A
document with a `$query` key is legacy style and is translated field by field;
without that wrapper a document with a top-level `filter` key is already in
command form; any other document is the bare filter. -/
def find_command_query (query : bson_t) : bson_t :=
  if bson_has_field query "$query" then query.map translate_query_field
  else if bson_has_field query "filter" then query
  else [("filter", .document query)]

/-- Modelled from the spec: the boolean command field of one wire flag. -/
def find_command_flag (flags : Nat) (flag : Nat) (name : String) : bson_t :=
  if flags &&& flag ≠ 0 then [(name, .bool true)] else []

/-- Modelled from the spec: the five wire flags of the mapping table. -/
def find_command_flags (flags : Nat) : bson_t :=
  find_command_flag flags MONGOC_QUERY_TAILABLE_CURSOR "tailable" ++
  find_command_flag flags MONGOC_QUERY_OPLOG_REPLAY "oplogReplay" ++
  find_command_flag flags MONGOC_QUERY_NO_CURSOR_TIMEOUT "noCursorTimeout" ++
  find_command_flag flags MONGOC_QUERY_AWAIT_DATA "awaitData" ++
  find_command_flag flags MONGOC_QUERY_PARTIAL "allowPartialResults"

/-- Modelled from the spec: the optional projection of the command document. -/
def find_command_projection : Option bson_t → bson_t
  | some fields => [("projection", .document fields)]
  | none => []

/-- Modelled from the spec: `skip`, `limit` and `batchSize`, emitted when not
zero and always as 64-bit integers. -/
def find_command_paging (args : find_args) : bson_t :=
  (if args.skip ≠ 0 then [("skip", .int64 (args.skip : Int))] else []) ++
  (if args.limit ≠ 0 then [("limit", .int64 args.limit)] else []) ++
  (if args.batch_size ≠ 0 then [("batchSize", .int64 (args.batch_size : Int))] else [])

/-- Modelled from the spec: the `find` command document of sections 4.3 and 6,
in the field order the tests expect. -/
def find_command_document (collection : String) (args : find_args) : bson_t :=
  ("find", .utf8 collection) :: (find_command_query args.query ++
    find_command_projection args.fields ++ find_command_paging args ++
    find_command_flags args.flags)

/-- Modelled from the spec: the derivation of the legacy opcode's
`number_to_return` from `limit` and `batch_size` (section 4.3). -/
def number_to_return (limit : Int) (batch_size : Nat) : Int :=
  if limit < 0 then limit
  else if 0 < limit ∧ (batch_size = 0 ∨ limit < (batch_size : Int)) then limit
  else (batch_size : Int)

/-- Modelled from the spec: the Query Translator of section 4.3.  The legacy
form carries the caller's query document as it is and hard-sets the
slave-acceptable flag; the command form carries only that flag in the header.
A document already in command form sent to a server below the threshold is a
capability mismatch. -/
def query_translate (max_wire_version : Int) (database collection : String)
    (args : find_args) : Except translate_error wire_request :=
  match capability_select max_wire_version with
  | .LegacyOpcode =>
    if !bson_has_field args.query "$query" && bson_has_field args.query "filter" then
      .error .ProtocolMismatchError
    else
      .ok (.LegacyQuery (database ++ "." ++ collection)
        (args.flags ||| MONGOC_QUERY_SLAVE_OK) args.skip
        (number_to_return args.limit args.batch_size) args.query args.fields)
  | .Command =>
    .ok (.CommandQuery database MONGOC_QUERY_SLAVE_OK
      (find_command_document collection args))

/-! ## Derived notions used in the statements -/

/-- The server description looked up at the start of a checkout on `pool`,
with the error slot after the lookup. -/
def checkout_env.sd (env : checkout_env) (pool : mongoc_connection_pool_t) :
    Option mongoc_server_description_t × bson_error_t :=
  env.mongoc_topology_description_server_by_id pool.topology.description pool.server_id env.error

/-- The host resolved for the server id of `pool` on the create path. -/
def checkout_env.host (env : checkout_env) (pool : mongoc_connection_pool_t) :
    Option mongoc_host_list_t × bson_error_t :=
  env._mongoc_topology_host_by_id pool.topology pool.server_id (env.sd pool).2

/-- The answer of the transport connect on the create path: the connect is
made to the resolved host with the connect timeout of the topology. -/
def checkout_env.connect (env : checkout_env) (pool : mongoc_connection_pool_t) :
    Option mongoc_stream_t × bson_error_t :=
  env.mongoc_client_connect_tcp pool.topology.connect_timeout_msec (env.host pool).1
    (env.host pool).2

/-- Whether an event is a transport connect. -/
def pool_event.is_connect : pool_event → Bool
  | .connect_tcp _ _ => true
  | _ => false

/-- Whether a pool makes a checkout wait, for a given capacity: nothing idle
and no free slot. -/
def must_wait (max_size : Nat) (pool : mongoc_connection_pool_t) : Bool :=
  pool.head.isEmpty && !decide (pool.size < max_size)

/-- A topology with room for one connection. -/
def example_topology : mongoc_topology_t :=
  { description := { servers := [] }, max_connection_pool_size := 1,
    connect_timeout_msec := 10000 }

/-- A server description with identity 7. -/
def example_sd : mongoc_server_description_t :=
  { id := 7, host := { host := "localhost", port := 27017 }, max_wire_version := 4 }

/-- Collaborators whose connect answers as given; the lookups find
`example_sd` and its host, the allocator answers `addr`. -/
def example_env (addr : Nat) (answer : Option mongoc_stream_t) : checkout_env :=
  { mongoc_topology_description_server_by_id := fun _ _ e => (some example_sd, e)
    _mongoc_topology_host_by_id := fun _ _ e => (some example_sd.host, e)
    mongoc_client_connect_tcp := fun _ _ e =>
      match answer with
      | some s => (some s, e)
      | none => (none, { message := "connection refused" })
    alloc := addr
    error := { message := "" } }

/-- A server stream at address 100 for server 7. -/
def example_stream : mongoc_server_stream_t :=
  { addr := 100, sd := some example_sd, stream := { fd := 5 }, server_id := 7 }

/-- The invariant of the reachable states: the topology is the one the pool
was created with, size is within the maximum, every connection counted in
size is idle or held, and the live connections are pairwise distinct. -/
def pool_system.inv (topology : mongoc_topology_t) (s : pool_system) : Prop :=
  s.pool.topology = topology ∧
  s.pool.size ≤ topology.max_connection_pool_size ∧
  s.pool.head.length + s.held.length = s.pool.size ∧
  s.live.Nodup


/-- Caller 1 checks out (a connection is created), checks it in, and caller 2
checks out after three spurious wake-ups would have been possible. -/
def example_calls : List pool_call :=
  [.checkout 1 (example_env 100 (some { fd := 5 })) 0, .checkin 1 example_stream,
   .checkout 2 (example_env 101 none) 3]

/-- The example system after caller 1 has checked a connection out and in. -/
def example_idle_system : pool_system :=
  { pool := { mongoc_connection_pool_new example_topology example_sd with
              head := [example_stream], size := 1 },
    held := [] }

/-- The query of `test_diskloc`, sent with no flags and no paging. -/
def example_diskloc_args : find_args :=
  { flags := MONGOC_QUERY_NONE, skip := 0, limit := 0, batch_size := 0,
    query := [("$query", .document []), ("$showDiskLoc", .bool true)], fields := none }

/-! ## Notions for the paging, flag and locking statements -/

/-- Whether a query document is already in command form: no `$query` wrapper
and a top-level `filter` field.  This is the test `query_translate` makes
before it emits the legacy form. -/
def is_command_form (query : bson_t) : Bool :=
  !bson_has_field query "$query" && bson_has_field query "filter"

/-- Whether an integer fits a signed 64-bit field. -/
def int64_fits (v : Int) : Prop :=
  -(2 ^ 63 : Int) ≤ v ∧ v < (2 ^ 63 : Int)

/-- The names of the three paging fields of the command document. -/
def paging_fields : List String :=
  ["skip", "limit", "batchSize"]

/-- The arguments of `test_limit`: limit 2 on a sorted legacy query. -/
def example_limit_args : find_args :=
  { flags := MONGOC_QUERY_NONE, skip := 0, limit := 2, batch_size := 0,
    query := [("$query", .document []), ("$orderby", .document [("_id", .int32 1)])],
    fields := none }

/-- The arguments of `test_skip`: skip 1 on a sorted legacy query. -/
def example_skip_args : find_args :=
  { flags := MONGOC_QUERY_NONE, skip := 1, limit := 0, batch_size := 0,
    query := [("$query", .document []), ("$orderby", .document [("_id", .int32 1)])],
    fields := none }

/-- The arguments of one round of `test_query_flags`: the tailable flag on an
empty query. -/
def example_flags_args : find_args :=
  { flags := MONGOC_QUERY_TAILABLE_CURSOR, skip := 0, limit := 0, batch_size := 0,
    query := [], fields := none }

/-- Whether an event reads or writes the size or the idle list of the pool. -/
def pool_event.is_shared_access : pool_event → Bool
  | .read_head => true
  | .write_head => true
  | .read_size => true
  | .write_size => true
  | _ => false

/-- Whether the mutex is held after an event, given whether it was held
before.  `mongoc_cond_wait` gives the mutex up while it waits and has it
again when it returns. -/
def pool_event.mutex_step (held : Bool) : pool_event → Bool
  | .mutex_lock => true
  | .mutex_unlock => false
  | _ => held

/-- Whether the mutex is held after a run of events. -/
def mutex_after (held : Bool) : List pool_event → Bool
  | [] => held
  | e :: es => mutex_after (e.mutex_step held) es

/-- Whether an event is allowed in the given state of the mutex: the mutex is
taken only when free and released only when held, size and idle list are
touched and the condition waited on only with the mutex held, and the
transport connect is made only with the mutex free. -/
def pool_event.mutex_ok (held : Bool) : pool_event → Bool
  | .mutex_lock => !held
  | .mutex_unlock => held
  | .read_head => held
  | .write_head => held
  | .read_size => held
  | .write_size => held
  | .cond_wait => held
  | .connect_tcp _ _ => !held
  | _ => true

/-- Whether every event of a run is allowed at the point where it happens. -/
def mutex_discipline (held : Bool) : List pool_event → Bool
  | [] => true
  | e :: es => e.mutex_ok held && mutex_discipline (e.mutex_step held) es

/-- The checkin call as the code runs it for any caller and any stream: there
is no test that the caller holds the stream.  The caller no longer holds the
stream afterwards if it did before. -/
def pool_system.checkin_unchecked (s : pool_system) (caller : Nat)
    (c : mongoc_server_stream_t) : pool_system :=
  { pool := (mongoc_checkin_connection s.pool c).pool, held := s.held.erase (caller, c) }

/-- The example system with `example_stream` held by caller 1. -/
def example_held_system : pool_system :=
  { pool := { mongoc_connection_pool_new example_topology example_sd with size := 1 },
    held := [(1, example_stream)] }

/-- The pool after the same stream has been checked in twice in a row. -/
def double_checkin (pool : mongoc_connection_pool_t) (c : mongoc_server_stream_t) :
    mongoc_connection_pool_t :=
  (mongoc_checkin_connection (mongoc_checkin_connection pool c).pool c).pool

/-- The example system after caller 1 has checked `example_stream` in twice. -/
def example_double_system : pool_system :=
  (example_held_system.checkin_unchecked 1 example_stream).checkin_unchecked 1 example_stream

/-- The events of `n` rounds of the waiting branch: the test of the idle list,
the test of the size, and the condition wait. -/
def wait_rounds : Nat → List pool_event
  | 0 => []
  | n + 1 => [.read_head, .read_size, .cond_wait] ++ wait_rounds n

/-- A pool at capacity one with nothing idle. -/
def example_full_pool : mongoc_connection_pool_t :=
  { mongoc_connection_pool_new example_topology example_sd with size := 1 }

/-- A pool at capacity one with `example_stream` idle, as a checkin leaves
`example_full_pool`. -/
def example_refilled_pool : mongoc_connection_pool_t :=
  { mongoc_connection_pool_new example_topology example_sd with
    head := [example_stream], size := 1 }

/-- The pool a waiter sees last: the one found after the last wake-up, or the
one it started on when there was no wake-up. -/
def pool_found_last (pool : mongoc_connection_pool_t) :
    List mongoc_connection_pool_t → mongoc_connection_pool_t
  | [] => pool
  | woken :: rest => pool_found_last woken rest

/-! ## Lemmas on the checkout loop -/

theorem checkout_again_idle (env : checkout_env) (topology : mongoc_topology_t) (server_id : Nat)
    (sd : Option mongoc_server_description_t) (error : bson_error_t)
    (ws : List mongoc_connection_pool_t) (pool : mongoc_connection_pool_t)
    (c : mongoc_server_stream_t) (rest : List mongoc_server_stream_t)
    (h : pool.head = c :: rest) :
    checkout_again env topology server_id sd error ws pool =
      { result := .returned c, pool := { pool with head := rest }, error := error,
        trace := [.read_head, .write_head, .free_node, .mutex_unlock] } := by
  cases ws <;> simp [checkout_again, h]

theorem checkout_again_connected (env : checkout_env) (topology : mongoc_topology_t)
    (server_id : Nat) (sd : Option mongoc_server_description_t) (error : bson_error_t)
    (ws : List mongoc_connection_pool_t) (pool : mongoc_connection_pool_t)
    (s : mongoc_stream_t) (hhead : pool.head = [])
    (hsize : pool.size < topology.max_connection_pool_size)
    (hconn : (env.mongoc_client_connect_tcp topology.connect_timeout_msec
      (env._mongoc_topology_host_by_id topology server_id error).1
      (env._mongoc_topology_host_by_id topology server_id error).2).1 = some s) :
    checkout_again env topology server_id sd error ws pool =
      { result := .returned { addr := env.alloc, sd := sd, stream := s, server_id := server_id }
        pool := { pool with size := pool.size + 1 }
        error := (env.mongoc_client_connect_tcp topology.connect_timeout_msec
          (env._mongoc_topology_host_by_id topology server_id error).1
          (env._mongoc_topology_host_by_id topology server_id error).2).2
        trace := [.read_head, .read_size, .write_size, .mutex_unlock, .host_by_id server_id,
          .connect_tcp topology.connect_timeout_msec
            (env._mongoc_topology_host_by_id topology server_id error).1,
          .server_stream_new, .mutex_lock, .mutex_unlock] } := by
  cases ws <;> simp [checkout_again, hhead, hsize, hconn, mongoc_server_stream_new]

theorem checkout_again_refused (env : checkout_env) (topology : mongoc_topology_t)
    (server_id : Nat) (sd : Option mongoc_server_description_t) (error : bson_error_t)
    (ws : List mongoc_connection_pool_t) (pool : mongoc_connection_pool_t)
    (hhead : pool.head = [])
    (hsize : pool.size < topology.max_connection_pool_size)
    (hconn : (env.mongoc_client_connect_tcp topology.connect_timeout_msec
      (env._mongoc_topology_host_by_id topology server_id error).1
      (env._mongoc_topology_host_by_id topology server_id error).2).1 = none) :
    checkout_again env topology server_id sd error ws pool =
      { result := .aborted (env.mongoc_client_connect_tcp topology.connect_timeout_msec
          (env._mongoc_topology_host_by_id topology server_id error).1
          (env._mongoc_topology_host_by_id topology server_id error).2).2.message
        pool := { pool with size := pool.size + 1 }
        error := (env.mongoc_client_connect_tcp topology.connect_timeout_msec
          (env._mongoc_topology_host_by_id topology server_id error).1
          (env._mongoc_topology_host_by_id topology server_id error).2).2
        trace := [.read_head, .read_size, .write_size, .mutex_unlock, .host_by_id server_id,
          .connect_tcp topology.connect_timeout_msec
            (env._mongoc_topology_host_by_id topology server_id error).1,
          .stderr_write (env.mongoc_client_connect_tcp topology.connect_timeout_msec
            (env._mongoc_topology_host_by_id topology server_id error).1
            (env._mongoc_topology_host_by_id topology server_id error).2).2.message,
          .abort] } := by
  cases ws <;> simp [checkout_again, hhead, hsize, hconn]

theorem checkout_again_wait_nil (env : checkout_env) (topology : mongoc_topology_t)
    (server_id : Nat) (sd : Option mongoc_server_description_t) (error : bson_error_t)
    (pool : mongoc_connection_pool_t) (hhead : pool.head = [])
    (hsize : ¬ pool.size < topology.max_connection_pool_size) :
    checkout_again env topology server_id sd error [] pool =
      { result := .waiting, pool := pool, error := error,
        trace := [.read_head, .read_size, .cond_wait] } := by
  simp [checkout_again, hhead, hsize]

theorem checkout_again_wait_cons (env : checkout_env) (topology : mongoc_topology_t)
    (server_id : Nat) (sd : Option mongoc_server_description_t) (error : bson_error_t)
    (woken : mongoc_connection_pool_t) (rest : List mongoc_connection_pool_t)
    (pool : mongoc_connection_pool_t) (hhead : pool.head = [])
    (hsize : ¬ pool.size < topology.max_connection_pool_size) :
    checkout_again env topology server_id sd error (woken :: rest) pool =
      (checkout_again env topology server_id sd error rest woken).after
        [.read_head, .read_size, .cond_wait] := by
  rw [checkout_again]
  simp [hhead, hsize]

/-- A checkout that does not stay blocked found, at the start or after some
wake-up, an idle connection or a free slot. -/
theorem checkout_again_not_waiting (env : checkout_env) (topology : mongoc_topology_t)
    (server_id : Nat) (sd : Option mongoc_server_description_t) (error : bson_error_t)
    (ws : List mongoc_connection_pool_t) :
    ∀ pool : mongoc_connection_pool_t,
      (checkout_again env topology server_id sd error ws pool).result ≠ .waiting →
      ∃ p ∈ pool :: ws, must_wait topology.max_connection_pool_size p = false := by
  induction ws with
  | nil =>
    intro pool h
    refine ⟨pool, by simp, ?_⟩
    by_contra hw
    have hw1 : must_wait topology.max_connection_pool_size pool = true := by
      simpa using hw
    simp only [must_wait, Bool.and_eq_true, List.isEmpty_iff, Bool.not_eq_true',
      decide_eq_false_iff_not] at hw1
    exact h (by rw [checkout_again_wait_nil env topology server_id sd error pool hw1.1 hw1.2])
  | cons woken rest ih =>
    intro pool h
    by_cases hw : must_wait topology.max_connection_pool_size pool = true
    · simp only [must_wait, Bool.and_eq_true, List.isEmpty_iff, Bool.not_eq_true',
        decide_eq_false_iff_not] at hw
      rw [checkout_again_wait_cons env topology server_id sd error woken rest pool hw.1 hw.2] at h
      obtain ⟨p, hp, hpw⟩ := ih woken h
      exact ⟨p, List.mem_cons_of_mem _ hp, hpw⟩
    · exact ⟨pool, by simp, by simpa using hw⟩

/-- Spurious wake-ups that find the pool as it was leave a waiting checkout
waiting. -/
theorem checkout_again_spurious (env : checkout_env) (topology : mongoc_topology_t)
    (server_id : Nat) (sd : Option mongoc_server_description_t) (error : bson_error_t)
    (pool : mongoc_connection_pool_t) (hhead : pool.head = [])
    (hsize : ¬ pool.size < topology.max_connection_pool_size) (n : Nat) :
    (checkout_again env topology server_id sd error (List.replicate n pool) pool).result =
      .waiting := by
  induction n with
  | zero => simp [checkout_again_wait_nil env topology server_id sd error pool hhead hsize]
  | succ n ih =>
    rw [List.replicate_succ,
      checkout_again_wait_cons env topology server_id sd error pool _ pool hhead hsize]
    simpa [checkout_outcome.after] using ih
theorem checkout_outcome_after_after (o : checkout_outcome) (a b : List pool_event) :
    (o.after a).after b = o.after (b ++ a) := by
  simp [checkout_outcome.after, List.append_assoc]

theorem count_cond_wait_wait_rounds (n : Nat) :
    (wait_rounds n).count .cond_wait = n := by
  induction n with
  | zero => rfl
  | succ n ih =>
    simp only [wait_rounds, List.count_append, ih]
    have h3 : List.count pool_event.cond_wait
        [pool_event.read_head, pool_event.read_size, pool_event.cond_wait] = 1 := by decide
    omega

theorem filter_connect_wait_rounds (n : Nat) :
    (wait_rounds n).filter pool_event.is_connect = [] := by
  induction n with
  | zero => rfl
  | succ n ih =>
    simp only [wait_rounds, List.filter_append, ih]
    rfl

/-- A checkout that finds, at the start and after each of the first wake-ups,
nothing idle and no free slot, runs one waiting round for each of them and
then decides on the pool found after the next wake-up. -/
theorem checkout_again_after_waits (env : checkout_env) (topology : mongoc_topology_t)
    (server_id : Nat) (sd : Option mongoc_server_description_t) (error : bson_error_t)
    (p : mongoc_connection_pool_t) (rest : List mongoc_connection_pool_t)
    (waits : List mongoc_connection_pool_t) :
    ∀ pool : mongoc_connection_pool_t,
      (∀ w ∈ pool :: waits, w.head = [] ∧ ¬ w.size < topology.max_connection_pool_size) →
      checkout_again env topology server_id sd error (waits ++ p :: rest) pool =
        (checkout_again env topology server_id sd error rest p).after
          (wait_rounds (waits.length + 1)) := by
  induction waits with
  | nil =>
    intro pool hall
    have hp := hall pool (by simp)
    rw [List.nil_append,
      checkout_again_wait_cons env topology server_id sd error p rest pool hp.1 hp.2]
    rfl
  | cons w ws ih =>
    intro pool hall
    have hp := hall pool (by simp)
    rw [List.cons_append,
      checkout_again_wait_cons env topology server_id sd error w _ pool hp.1 hp.2,
      ih w (fun x hx => hall x (List.mem_cons_of_mem _ hx)), checkout_outcome_after_after]
    rfl

/-- A checkout that finds nothing idle and no free slot at the start and after
every wake-up is blocked in the condition wait, on the pool found last. -/
theorem checkout_again_all_wait (env : checkout_env) (topology : mongoc_topology_t)
    (server_id : Nat) (sd : Option mongoc_server_description_t) (error : bson_error_t)
    (ws : List mongoc_connection_pool_t) :
    ∀ pool : mongoc_connection_pool_t,
      (∀ w ∈ pool :: ws, w.head = [] ∧ ¬ w.size < topology.max_connection_pool_size) →
      checkout_again env topology server_id sd error ws pool =
        { result := .waiting, pool := pool_found_last pool ws, error := error,
          trace := wait_rounds (ws.length + 1) } := by
  induction ws with
  | nil =>
    intro pool hall
    have hp := hall pool (by simp)
    rw [checkout_again_wait_nil env topology server_id sd error pool hp.1 hp.2]
    rfl
  | cons w ws ih =>
    intro pool hall
    have hp := hall pool (by simp)
    rw [checkout_again_wait_cons env topology server_id sd error w ws pool hp.1 hp.2,
      ih w (fun x hx => hall x (List.mem_cons_of_mem _ hx))]
    rfl

/-! ## Failing connect (C3, C4) -/

/-- C3, as stated, fails: on a pool with nothing idle and a free slot, a
refused connect does not make checkout return an error; the call ends in
`abort ()` after writing the message to stderr, and returns nothing. -/
theorem checkout_refused_aborts_example :
    (mongoc_checkout_connection (example_env 100 none) []
        (mongoc_connection_pool_new example_topology example_sd)).result =
      .aborted "connection refused" ∧
    .abort ∈ (mongoc_checkout_connection (example_env 100 none) []
        (mongoc_connection_pool_new example_topology example_sd)).trace ∧
    ¬ ∃ c, (mongoc_checkout_connection (example_env 100 none) []
        (mongoc_connection_pool_new example_topology example_sd)).result = .returned c := by
  refine ⟨by decide, by decide, ?_⟩
  rintro ⟨c, hc⟩
  have h : (mongoc_checkout_connection (example_env 100 none) []
      (mongoc_connection_pool_new example_topology example_sd)).result =
        .aborted "connection refused" := by decide
  rw [h] at hc
  cases hc

/-- C3 amended: when the transport connect fails during checkout (nothing
idle, size below the maximum; the host lookup may have failed or not),
checkout writes the error message left by the connect to stderr and aborts the
process.  It does not return to its caller, it does not wait, and it makes
exactly one connect attempt, whatever wake-ups are on offer. -/
theorem checkout_connect_failure_aborts (env : checkout_env)
    (wakeups : List mongoc_connection_pool_t) (pool : mongoc_connection_pool_t)
    (hhead : pool.head = [])
    (hsize : pool.size < pool.topology.max_connection_pool_size)
    (hconn : (env.connect pool).1 = none) :
    (mongoc_checkout_connection env wakeups pool).result =
      .aborted (env.connect pool).2.message ∧
    (∀ c, (mongoc_checkout_connection env wakeups pool).result ≠ .returned c) ∧
    (mongoc_checkout_connection env wakeups pool).result ≠ .waiting ∧
    ((mongoc_checkout_connection env wakeups pool).trace.filter pool_event.is_connect).length
      = 1 ∧
    (mongoc_checkout_connection env wakeups pool).trace.getLast? = some .abort ∧
    .stderr_write (env.connect pool).2.message ∈
      (mongoc_checkout_connection env wakeups pool).trace := by
  have h := checkout_again_refused env pool.topology pool.server_id (env.sd pool).1
    (env.sd pool).2 wakeups pool hhead hsize hconn
  simp only [mongoc_checkout_connection]
  rw [show env.mongoc_topology_description_server_by_id pool.topology.description
    pool.server_id env.error = env.sd pool from rfl, h]
  simp [checkout_outcome.after, pool_event.is_connect, checkout_env.connect, checkout_env.host,
    List.filter]

/-- Witness of the amended C3 on the example pool. -/
theorem checkout_connect_failure_aborts_witness :
    (mongoc_checkout_connection (example_env 100 none) []
        (mongoc_connection_pool_new example_topology example_sd)).result =
      .aborted "connection refused" :=
  (checkout_connect_failure_aborts (example_env 100 none) []
    (mongoc_connection_pool_new example_topology example_sd) rfl (by decide) rfl).1

/-- C4, as stated, fails: after the refused connect the size of the example
pool is 1, not the 0 it was before the call. -/
theorem checkout_refused_keeps_slot_example :
    (mongoc_connection_pool_new example_topology example_sd).size = 0 ∧
    (mongoc_checkout_connection (example_env 100 none) []
        (mongoc_connection_pool_new example_topology example_sd)).pool.size = 1 ∧
    (mongoc_checkout_connection (example_env 100 none) []
        (mongoc_connection_pool_new example_topology example_sd)).pool.size ≠
      (mongoc_connection_pool_new example_topology example_sd).size := by
  decide

/-- C4 amended: a checkout whose connect attempt fails aborts the process
with the size of the pool one more than before the call (the reserved slot is
not released) and the idle list still empty; the call does not return, so no
later checkout runs on that pool. -/
theorem checkout_connect_failure_size (env : checkout_env)
    (wakeups : List mongoc_connection_pool_t) (pool : mongoc_connection_pool_t)
    (hhead : pool.head = [])
    (hsize : pool.size < pool.topology.max_connection_pool_size)
    (hconn : (env.connect pool).1 = none) :
    (mongoc_checkout_connection env wakeups pool).pool.size = pool.size + 1 ∧
    (mongoc_checkout_connection env wakeups pool).pool.head = [] ∧
    (mongoc_checkout_connection env wakeups pool).pool = { pool with size := pool.size + 1 } ∧
    (mongoc_checkout_connection env wakeups pool).result =
      .aborted (env.connect pool).2.message := by
  have h := checkout_again_refused env pool.topology pool.server_id (env.sd pool).1
    (env.sd pool).2 wakeups pool hhead hsize hconn
  simp only [mongoc_checkout_connection]
  rw [show env.mongoc_topology_description_server_by_id pool.topology.description
    pool.server_id env.error = env.sd pool from rfl, h]
  simp [checkout_outcome.after, checkout_env.connect, checkout_env.host, hhead]

/-- Witness of the amended C4 on the example pool. -/
theorem checkout_connect_failure_size_witness :
    (mongoc_checkout_connection (example_env 100 none) []
        (mongoc_connection_pool_new example_topology example_sd)).pool.size = 0 + 1 :=
  (checkout_connect_failure_size (example_env 100 none) []
    (mongoc_connection_pool_new example_topology example_sd) rfl (by decide) rfl).1

/-! ## Successful checkout (C5, C6) -/

/-- C5: on a pool with an empty idle list and size below the maximum, a
checkout whose connect succeeds returns, whatever wake-ups are on offer, a
newly allocated server stream whose server id is the one of the pool and
whose transport is the one the connect returned for the host resolved for
that server id and the connect timeout of the topology; size grows by exactly
one, the idle list stays empty, and exactly one connect was made. -/
theorem checkout_creates_connection (env : checkout_env)
    (wakeups : List mongoc_connection_pool_t) (pool : mongoc_connection_pool_t)
    (s : mongoc_stream_t) (hhead : pool.head = [])
    (hsize : pool.size < pool.topology.max_connection_pool_size)
    (hconn : (env.connect pool).1 = some s) :
    (mongoc_checkout_connection env wakeups pool).result =
      .returned { addr := env.alloc, sd := (env.sd pool).1, stream := s,
                  server_id := pool.server_id } ∧
    (mongoc_checkout_connection env wakeups pool).pool.size = pool.size + 1 ∧
    (mongoc_checkout_connection env wakeups pool).pool.head = [] ∧
    (mongoc_checkout_connection env wakeups pool).pool = { pool with size := pool.size + 1 } ∧
    .connect_tcp pool.topology.connect_timeout_msec
        (env._mongoc_topology_host_by_id pool.topology pool.server_id (env.sd pool).2).1 ∈
      (mongoc_checkout_connection env wakeups pool).trace ∧
    ((mongoc_checkout_connection env wakeups pool).trace.filter pool_event.is_connect).length
      = 1 := by
  have h := checkout_again_connected env pool.topology pool.server_id (env.sd pool).1
    (env.sd pool).2 wakeups pool s hhead hsize hconn
  simp only [mongoc_checkout_connection]
  rw [show env.mongoc_topology_description_server_by_id pool.topology.description
    pool.server_id env.error = env.sd pool from rfl, h]
  simp [checkout_outcome.after, pool_event.is_connect, hhead, List.filter, checkout_env.connect,
    checkout_env.host]

/-- Witness of C5: the first checkout on the example pool. -/
theorem checkout_creates_connection_witness :
    (mongoc_checkout_connection (example_env 100 (some { fd := 5 })) []
        (mongoc_connection_pool_new example_topology example_sd)).result =
      .returned example_stream :=
  (checkout_creates_connection (example_env 100 (some { fd := 5 })) []
    (mongoc_connection_pool_new example_topology example_sd) { fd := 5 } rfl (by decide) rfl).1
/-- C6: on a pool whose idle list is not empty, checkout returns the head of
the idle list (the most recently checked-in connection), removes exactly that
entry and keeps the rest in order, changes nothing else in the pool (size
included, whether below the maximum or not), makes no connect and does not
wait; hence a checkin of `d` followed by a checkout returns `d` and gives
back the pool as it was before the checkin. -/
theorem checkout_pops_idle_head (env : checkout_env)
    (wakeups : List mongoc_connection_pool_t) (pool : mongoc_connection_pool_t)
    (c : mongoc_server_stream_t) (rest : List mongoc_server_stream_t)
    (hhead : pool.head = c :: rest) :
    (mongoc_checkout_connection env wakeups pool).result = .returned c ∧
    (mongoc_checkout_connection env wakeups pool).pool.head = rest ∧
    (mongoc_checkout_connection env wakeups pool).pool.size = pool.size ∧
    (mongoc_checkout_connection env wakeups pool).pool = { pool with head := rest } ∧
    (mongoc_checkout_connection env wakeups pool).trace.filter pool_event.is_connect = [] ∧
    .cond_wait ∉ (mongoc_checkout_connection env wakeups pool).trace ∧
    (∀ (p : mongoc_connection_pool_t) (d : mongoc_server_stream_t),
      (mongoc_checkout_connection env wakeups (mongoc_checkin_connection p d).pool).result =
        .returned d ∧
      (mongoc_checkout_connection env wakeups (mongoc_checkin_connection p d).pool).pool = p) := by
  have h := fun sd e => checkout_again_idle env pool.topology pool.server_id sd e wakeups pool c
    rest hhead
  refine ⟨?_, ?_, ?_, ?_, ?_, ?_, ?_⟩
  · simp [mongoc_checkout_connection, h, checkout_outcome.after]
  · simp [mongoc_checkout_connection, h, checkout_outcome.after]
  · simp [mongoc_checkout_connection, h, checkout_outcome.after]
  · simp [mongoc_checkout_connection, h, checkout_outcome.after]
  · simp [mongoc_checkout_connection, h, checkout_outcome.after, pool_event.is_connect,
      List.filter]
  · simp [mongoc_checkout_connection, h, checkout_outcome.after]
  · intro p d
    have h2 := fun sd e => checkout_again_idle env p.topology p.server_id sd e wakeups
      (mongoc_checkin_connection p d).pool d p.head rfl
    simp [mongoc_checkout_connection, mongoc_checkin_connection, checkout_outcome.after] at h2 ⊢
    simp [h2]

/-- Witness of C6: a pool at capacity 1 with `example_stream` idle. -/
theorem checkout_pops_idle_head_witness :
    (mongoc_checkout_connection (example_env 101 none) []
        { mongoc_connection_pool_new example_topology example_sd with
          head := [example_stream], size := 1 }).result = .returned example_stream :=
  (checkout_pops_idle_head (example_env 101 none) []
    { mongoc_connection_pool_new example_topology example_sd with
      head := [example_stream], size := 1 } example_stream [] rfl).1

/-! ## Waiting (C7) -/

/-- C7: on a pool with an empty idle list and size equal to the maximum (zero
included), checkout neither returns nor aborts: with no wake-up it is blocked
in the condition wait, the pool unchanged and no connect made.  After each
wake-up it takes the whole decision again on the pool it then finds: as long
as these pools have nothing idle and no free slot it waits again, once per
wake-up, and stays blocked when the wake-ups end; at the first pool with an
idle connection it returns the head of that idle list; at the first pool with
an empty idle list and size below the maximum it takes the slot and connects,
returning the new stream or aborting as the connect answers.  So the call
ends otherwise than blocked only when a pool found after a wake-up had an
idle connection or size below the maximum. -/
theorem checkout_waits_at_capacity (env : checkout_env) (pool : mongoc_connection_pool_t)
    (hhead : pool.head = [])
    (hsize : pool.size = pool.topology.max_connection_pool_size) :
    (mongoc_checkout_connection env [] pool).result = .waiting ∧
    (mongoc_checkout_connection env [] pool).pool = pool ∧
    (mongoc_checkout_connection env [] pool).trace.getLast? = some .cond_wait ∧
    (mongoc_checkout_connection env [] pool).trace.filter pool_event.is_connect = [] ∧
    (∀ (woken : mongoc_connection_pool_t) (rest : List mongoc_connection_pool_t),
      mongoc_checkout_connection env (woken :: rest) pool =
        (checkout_again env pool.topology pool.server_id (env.sd pool).1 (env.sd pool).2
          rest woken).after
          [.mutex_lock, .read_server_id, .read_topology, .server_by_id pool.server_id,
           .read_head, .read_size, .cond_wait]) ∧
    (∀ wakeups : List mongoc_connection_pool_t,
      (mongoc_checkout_connection env wakeups pool).result ≠ .waiting →
      ∃ p ∈ wakeups, p.head ≠ [] ∨ p.size < pool.topology.max_connection_pool_size) ∧
    (∀ wakeups : List mongoc_connection_pool_t,
      (∀ w ∈ wakeups, w.head = [] ∧ ¬ w.size < pool.topology.max_connection_pool_size) →
      (mongoc_checkout_connection env wakeups pool).result = .waiting ∧
      (mongoc_checkout_connection env wakeups pool).pool = pool_found_last pool wakeups ∧
      (mongoc_checkout_connection env wakeups pool).trace.count .cond_wait =
        wakeups.length + 1 ∧
      (mongoc_checkout_connection env wakeups pool).trace.filter pool_event.is_connect = []) ∧
    (∀ (waits : List mongoc_connection_pool_t) (p : mongoc_connection_pool_t)
      (rest : List mongoc_connection_pool_t),
      (∀ w ∈ waits, w.head = [] ∧ ¬ w.size < pool.topology.max_connection_pool_size) →
      (∀ c r, p.head = c :: r →
        (mongoc_checkout_connection env (waits ++ p :: rest) pool).result = .returned c ∧
        (mongoc_checkout_connection env (waits ++ p :: rest) pool).pool =
          { p with head := r } ∧
        (mongoc_checkout_connection env (waits ++ p :: rest) pool).trace.count .cond_wait =
          waits.length + 1 ∧
        (mongoc_checkout_connection env (waits ++ p :: rest) pool).trace.filter
          pool_event.is_connect = []) ∧
      (p.head = [] → p.size < pool.topology.max_connection_pool_size →
        ∀ s, (env.connect pool).1 = some s →
        (mongoc_checkout_connection env (waits ++ p :: rest) pool).result =
          .returned { addr := env.alloc, sd := (env.sd pool).1, stream := s,
                      server_id := pool.server_id } ∧
        (mongoc_checkout_connection env (waits ++ p :: rest) pool).pool =
          { p with size := p.size + 1 } ∧
        (mongoc_checkout_connection env (waits ++ p :: rest) pool).trace.count .cond_wait =
          waits.length + 1) ∧
      (p.head = [] → p.size < pool.topology.max_connection_pool_size →
        (env.connect pool).1 = none →
        (mongoc_checkout_connection env (waits ++ p :: rest) pool).result =
          .aborted (env.connect pool).2.message ∧
        (mongoc_checkout_connection env (waits ++ p :: rest) pool).pool =
          { p with size := p.size + 1 } ∧
        (mongoc_checkout_connection env (waits ++ p :: rest) pool).trace.count .cond_wait =
          waits.length + 1)) := by
  have hlt : ¬ pool.size < pool.topology.max_connection_pool_size := by omega
  have h0 := checkout_again_wait_nil env pool.topology pool.server_id (env.sd pool).1
    (env.sd pool).2 pool hhead hlt
  have hsd : env.mongoc_topology_description_server_by_id pool.topology.description
    pool.server_id env.error = env.sd pool := rfl
  have hcount : ∀ n, List.count pool_event.cond_wait (wait_rounds n) = n :=
    count_cond_wait_wait_rounds
  have hfilter : ∀ n, List.filter pool_event.is_connect (wait_rounds n) = [] :=
    filter_connect_wait_rounds
  have hall : ∀ ws : List mongoc_connection_pool_t,
      (∀ w ∈ ws, w.head = [] ∧ ¬ w.size < pool.topology.max_connection_pool_size) →
      ∀ w ∈ pool :: ws, w.head = [] ∧ ¬ w.size < pool.topology.max_connection_pool_size := by
    intro ws hws w hw
    rcases List.mem_cons.mp hw with rfl | hw
    · exact ⟨hhead, hlt⟩
    · exact hws w hw
  refine ⟨?_, ?_, ?_, ?_, ?_, ?_, ?_, ?_⟩
  · simp [mongoc_checkout_connection, hsd, h0, checkout_outcome.after]
  · simp [mongoc_checkout_connection, hsd, h0, checkout_outcome.after]
  · simp [mongoc_checkout_connection, hsd, h0, checkout_outcome.after]
  · simp [mongoc_checkout_connection, hsd, h0, checkout_outcome.after, pool_event.is_connect,
      List.filter]
  · intro woken rest
    simp only [mongoc_checkout_connection, hsd]
    rw [checkout_again_wait_cons env pool.topology pool.server_id (env.sd pool).1
      (env.sd pool).2 woken rest pool hhead hlt]
    simp [checkout_outcome.after]
  · intro wakeups hne
    have hne2 : (checkout_again env pool.topology pool.server_id (env.sd pool).1
        (env.sd pool).2 wakeups pool).result ≠ .waiting := by
      simpa [mongoc_checkout_connection, hsd, checkout_outcome.after] using hne
    obtain ⟨p, hp, hpw⟩ := checkout_again_not_waiting env pool.topology pool.server_id
      (env.sd pool).1 (env.sd pool).2 wakeups pool hne2
    rcases List.mem_cons.mp hp with rfl | hp
    · simp [must_wait, hhead, hlt] at hpw
    · refine ⟨p, hp, ?_⟩
      simp only [must_wait, Bool.and_eq_false_imp, List.isEmpty_iff, Bool.not_eq_false',
        decide_eq_true_eq] at hpw
      by_cases hp0 : p.head = []
      · exact Or.inr (hpw hp0)
      · exact Or.inl hp0
  · intro wakeups hws
    have hw := checkout_again_all_wait env pool.topology pool.server_id (env.sd pool).1
      (env.sd pool).2 wakeups pool (hall wakeups hws)
    simp only [mongoc_checkout_connection, hsd]
    rw [hw]
    refine ⟨rfl, rfl, ?_, ?_⟩
    · simp only [checkout_outcome.after, List.count_append, hcount]
      have h4 : List.count pool_event.cond_wait
          [pool_event.mutex_lock, pool_event.read_server_id, pool_event.read_topology,
            pool_event.server_by_id pool.server_id] = 0 := by
        simp [List.count_cons]
      omega
    · simp only [checkout_outcome.after, List.filter_append, hfilter]
      rfl
  · intro waits p rest hws
    have hskip := checkout_again_after_waits env pool.topology pool.server_id (env.sd pool).1
      (env.sd pool).2 p rest waits pool (hall waits hws)
    have h4 : List.count pool_event.cond_wait
        [pool_event.mutex_lock, pool_event.read_server_id, pool_event.read_topology,
          pool_event.server_by_id pool.server_id] = 0 := by
      simp [List.count_cons]
    refine ⟨?_, ?_, ?_⟩
    · intro c r hp
      simp only [mongoc_checkout_connection, hsd]
      rw [hskip, checkout_again_idle env pool.topology pool.server_id (env.sd pool).1
        (env.sd pool).2 rest p c r hp]
      refine ⟨rfl, rfl, ?_, ?_⟩
      · simp only [checkout_outcome.after, List.count_append, hcount, h4]
        have h5 : List.count pool_event.cond_wait
            [pool_event.read_head, pool_event.write_head, pool_event.free_node,
              pool_event.mutex_unlock] = 0 := by decide
        omega
      · simp only [checkout_outcome.after, List.filter_append, hfilter]
        rfl
    · intro hp hfree s hconn
      simp only [mongoc_checkout_connection, hsd]
      rw [hskip, checkout_again_connected env pool.topology pool.server_id (env.sd pool).1
        (env.sd pool).2 rest p s hp hfree hconn]
      refine ⟨rfl, rfl, ?_⟩
      simp only [checkout_outcome.after, List.count_append, hcount, h4]
      simp [List.count_cons]
    · intro hp hfree hconn
      simp only [mongoc_checkout_connection, hsd]
      rw [hskip, checkout_again_refused env pool.topology pool.server_id (env.sd pool).1
        (env.sd pool).2 rest p hp hfree hconn]
      refine ⟨rfl, rfl, ?_⟩
      simp only [checkout_outcome.after, List.count_append, hcount, h4]
      simp [List.count_cons]

/-- Witness of C7: the example pool at capacity with nothing idle stays
blocked without a wake-up, and after one spurious wake-up and one wake-up that
finds `example_stream` checked in, it returns that stream. -/
theorem checkout_waits_at_capacity_witness :
    (mongoc_checkout_connection (example_env 101 (some { fd := 6 })) []
        example_full_pool).result = .waiting ∧
    (mongoc_checkout_connection (example_env 101 (some { fd := 6 }))
        ([example_full_pool] ++ example_refilled_pool :: []) example_full_pool).result =
      .returned example_stream ∧
    (mongoc_checkout_connection (example_env 101 (some { fd := 6 }))
        ([example_full_pool] ++ example_refilled_pool :: []) example_full_pool).pool =
      example_full_pool :=
  ⟨(checkout_waits_at_capacity (example_env 101 (some { fd := 6 })) example_full_pool rfl rfl).1,
   (((checkout_waits_at_capacity (example_env 101 (some { fd := 6 })) example_full_pool rfl
      rfl).2.2.2.2.2.2.2 [example_full_pool] example_refilled_pool [] (by decide)).1
      example_stream [] rfl).1,
   (((checkout_waits_at_capacity (example_env 101 (some { fd := 6 })) example_full_pool rfl
      rfl).2.2.2.2.2.2.2 [example_full_pool] example_refilled_pool [] (by decide)).1
      example_stream [] rfl).2.1⟩

/-! ## Checkin (C8) -/

/-- C8: for every pool and connection, checkin returns (it is a total
function and its events contain no condition wait), makes the connection the
head of the idle list in front of the previous list, signals the condition
variable exactly once, and leaves size, server id and topology as they were. -/
theorem checkin_prepends_and_signals (pool : mongoc_connection_pool_t)
    (c : mongoc_server_stream_t) :
    (mongoc_checkin_connection pool c).pool.head = c :: pool.head ∧
    (mongoc_checkin_connection pool c).pool.size = pool.size ∧
    (mongoc_checkin_connection pool c).pool.server_id = pool.server_id ∧
    (mongoc_checkin_connection pool c).pool.topology = pool.topology ∧
    (mongoc_checkin_connection pool c).trace.count .cond_signal = 1 ∧
    .cond_wait ∉ (mongoc_checkin_connection pool c).trace := by
  refine ⟨rfl, rfl, rfl, rfl, ?_, ?_⟩
  · simp [mongoc_checkin_connection]
  · simp [mongoc_checkin_connection]
/-! ## Outcomes of a whole checkout call -/

theorem checkout_outcome_of_idle (env : checkout_env)
    (wakeups : List mongoc_connection_pool_t) (pool : mongoc_connection_pool_t)
    (c : mongoc_server_stream_t) (rest : List mongoc_server_stream_t)
    (hhead : pool.head = c :: rest) :
    (mongoc_checkout_connection env wakeups pool).result = .returned c ∧
    (mongoc_checkout_connection env wakeups pool).pool = { pool with head := rest } := by
  simp [mongoc_checkout_connection, checkout_outcome.after,
    checkout_again_idle env pool.topology pool.server_id _ _ wakeups pool c rest hhead]

theorem checkout_outcome_of_refusal (env : checkout_env)
    (wakeups : List mongoc_connection_pool_t) (pool : mongoc_connection_pool_t)
    (hhead : pool.head = [])
    (hsize : pool.size < pool.topology.max_connection_pool_size)
    (hconn : (env.connect pool).1 = none) :
    (mongoc_checkout_connection env wakeups pool).result =
      .aborted (env.connect pool).2.message := by
  have h := checkout_again_refused env pool.topology pool.server_id (env.sd pool).1
    (env.sd pool).2 wakeups pool hhead hsize hconn
  simp only [mongoc_checkout_connection]
  rw [show env.mongoc_topology_description_server_by_id pool.topology.description
    pool.server_id env.error = env.sd pool from rfl, h]
  simp [checkout_outcome.after, checkout_env.connect, checkout_env.host]

theorem checkout_outcome_of_connect (env : checkout_env)
    (wakeups : List mongoc_connection_pool_t) (pool : mongoc_connection_pool_t)
    (s : mongoc_stream_t) (hhead : pool.head = [])
    (hsize : pool.size < pool.topology.max_connection_pool_size)
    (hconn : (env.connect pool).1 = some s) :
    (mongoc_checkout_connection env wakeups pool).result =
      .returned { addr := env.alloc, sd := (env.sd pool).1, stream := s,
                  server_id := pool.server_id } ∧
    (mongoc_checkout_connection env wakeups pool).pool = { pool with size := pool.size + 1 } := by
  have h := checkout_again_connected env pool.topology pool.server_id (env.sd pool).1
    (env.sd pool).2 wakeups pool s hhead hsize hconn
  simp only [mongoc_checkout_connection]
  rw [show env.mongoc_topology_description_server_by_id pool.topology.description
    pool.server_id env.error = env.sd pool from rfl, h]
  simp [checkout_outcome.after]
/-! ## Reachable states (C1, C2) -/

theorem perm_cons_erase_lawful {α : Type} [BEq α] [LawfulBEq α] {a : α} {l : List α}
    (h : a ∈ l) : l.Perm (a :: l.erase a) := by
  induction l with
  | nil => cases h
  | cons b t ih =>
    by_cases hb : b = a
    · subst hb
      simp
    · have hmem : a ∈ t := by
        rcases List.mem_cons.mp h with h1 | h1
        · exact absurd h1.symm hb
        · exact h1
      rw [List.erase_cons_tail (by simpa using hb)]
      exact (List.Perm.cons b (ih hmem)).trans (List.Perm.swap a b _)

theorem pool_system.inv_new (topology : mongoc_topology_t) (sd : mongoc_server_description_t) :
    (pool_system.new topology sd).inv topology := by
  simp [pool_system.inv, pool_system.new, mongoc_connection_pool_new, pool_system.live]

/-- The two ways a checkout returns: it pops the idle head, or it creates a
connection at the allocator address in a free slot. -/
theorem pool_system.checkout_cases (s : pool_system) (caller : Nat) (env : checkout_env)
    (n : Nat) (c : mongoc_server_stream_t) (s1 : pool_system)
    (h : s.checkout caller env n = some (c, s1)) :
    env.alloc ∉ s.live ∧ s1.held = (caller, c) :: s.held ∧
    ((∃ rest, s.pool.head = c :: rest ∧ s1.pool = { s.pool with head := rest }) ∨
     (s.pool.head = [] ∧ s.pool.size < s.pool.topology.max_connection_pool_size ∧
      c.addr = env.alloc ∧ s1.pool = { s.pool with size := s.pool.size + 1 })) := by
  unfold pool_system.checkout at h
  by_cases hfresh : env.alloc ∈ s.live
  · simp [hfresh] at h
  · simp only [hfresh, if_false] at h
    refine ⟨hfresh, ?_⟩
    cases hhead : s.pool.head with
    | cons d rest =>
      have hpop := checkout_outcome_of_idle env (List.replicate n s.pool) s.pool d rest hhead
      rw [hpop.1] at h
      simp only [Option.some.injEq, Prod.mk.injEq] at h
      obtain ⟨rfl, rfl⟩ := h
      exact ⟨rfl, Or.inl ⟨rest, rfl, hpop.2⟩⟩
    | nil =>
      by_cases hsize : s.pool.size < s.pool.topology.max_connection_pool_size
      · cases hconn : (env.connect s.pool).1 with
        | none =>
          have hab := checkout_outcome_of_refusal env (List.replicate n s.pool) s.pool hhead hsize hconn
          rw [hab] at h
          simp at h
        | some st =>
          have hok := checkout_outcome_of_connect env (List.replicate n s.pool) s.pool st hhead hsize
            hconn
          rw [hok.1] at h
          simp only [Option.some.injEq, Prod.mk.injEq] at h
          obtain ⟨rfl, rfl⟩ := h
          exact ⟨rfl, Or.inr ⟨rfl, hsize, rfl, hok.2⟩⟩
      · have hw : (mongoc_checkout_connection env (List.replicate n s.pool) s.pool).result =
            .waiting := by
          simp only [mongoc_checkout_connection, checkout_outcome.after]
          exact checkout_again_spurious env _ _ _ _ s.pool hhead hsize n
        rw [hw] at h
        simp at h

theorem pool_system.inv_checkout (topology : mongoc_topology_t) (s : pool_system)
    (caller : Nat) (env : checkout_env) (n : Nat) (c : mongoc_server_stream_t)
    (s1 : pool_system) (hinv : s.inv topology)
    (h : s.checkout caller env n = some (c, s1)) : s1.inv topology := by
  obtain ⟨htop, hle, hcount, hnd⟩ := hinv
  obtain ⟨hfresh, hheld, hcase⟩ := s.checkout_cases caller env n c s1 h
  rcases hcase with ⟨rest, hhead, hpool⟩ | ⟨hhead, hsize, haddr, hpool⟩
  · refine ⟨by rw [hpool]; exact htop, by rw [hpool]; exact hle, ?_, ?_⟩
    · rw [hpool, hheld]
      simp only [List.length_cons]
      rw [hhead] at hcount
      simp only [List.length_cons] at hcount
      omega
    · simp only [pool_system.live, hpool, hheld, List.map_cons] at hnd ⊢
      rw [hhead] at hnd
      simp only [List.map_cons, List.cons_append] at hnd
      exact (List.perm_middle.nodup_iff).mpr hnd
  · refine ⟨by rw [hpool]; exact htop, ?_, ?_, ?_⟩
    · rw [hpool]
      simp only
      rw [htop] at hsize
      omega
    · rw [hpool, hheld]
      simp only [List.length_cons]
      omega
    · simp only [pool_system.live, hpool, hheld, List.map_cons] at hnd hfresh ⊢
      rw [hhead] at hnd hfresh ⊢
      simp only [List.map_nil, List.nil_append] at hnd hfresh ⊢
      rw [haddr]
      exact List.nodup_cons.mpr ⟨hfresh, hnd⟩

theorem pool_system.inv_checkin (topology : mongoc_topology_t) (s : pool_system)
    (caller : Nat) (c : mongoc_server_stream_t) (s1 : pool_system) (hinv : s.inv topology)
    (h : s.checkin caller c = some s1) : s1.inv topology := by
  obtain ⟨htop, hle, hcount, hnd⟩ := hinv
  unfold pool_system.checkin at h
  by_cases hmem : (caller, c) ∈ s.held
  · simp only [hmem, if_true, Option.some.injEq] at h
    subst h
    have hlen := List.length_erase_of_mem hmem
    have hpos : 0 < s.held.length := List.length_pos_of_mem hmem
    refine ⟨htop, hle, ?_, ?_⟩
    · simp only [mongoc_checkin_connection, List.length_cons]
      omega
    · have hperm : s.held.Perm ((caller, c) :: s.held.erase (caller, c)) :=
        perm_cons_erase_lawful hmem
      have hperm2 := hperm.map (fun h : Nat × mongoc_server_stream_t => h.2.addr)
      simp only [pool_system.live, mongoc_checkin_connection, List.map_cons,
        List.cons_append] at hnd ⊢
      have h3 : (List.map (fun c => c.addr) s.pool.head ++
          List.map (fun h : Nat × mongoc_server_stream_t => h.2.addr) s.held).Perm
          (c.addr :: (List.map (fun c => c.addr) s.pool.head ++
            List.map (fun h : Nat × mongoc_server_stream_t => h.2.addr)
              (s.held.erase (caller, c)))) :=
        ((List.Perm.append_left _ hperm2).trans List.perm_middle)
      exact (h3.nodup_iff).mp hnd
  · simp [hmem] at h

theorem pool_system.inv_step (topology : mongoc_topology_t) (s : pool_system)
    (call : pool_call) (s1 : pool_system) (hinv : s.inv topology)
    (h : s.step call = some s1) : s1.inv topology := by
  cases call with
  | checkout caller env n =>
    simp only [pool_system.step, Option.map_eq_some'] at h
    obtain ⟨⟨c, s2⟩, hco, rfl⟩ := h
    exact pool_system.inv_checkout topology s caller env n c s2 hinv hco
  | checkin caller c => exact pool_system.inv_checkin topology s caller c s1 hinv h

theorem pool_system.inv_run (topology : mongoc_topology_t) (calls : List pool_call) :
    ∀ (s s1 : pool_system), s.inv topology → s.run calls = some s1 → s1.inv topology := by
  induction calls with
  | nil =>
    intro s s1 hinv h
    simp only [pool_system.run, Option.some.injEq] at h
    exact h ▸ hinv
  | cons call calls ih =>
    intro s s1 hinv h
    simp only [pool_system.run] at h
    cases hstep : s.step call with
    | none => simp [hstep] at h
    | some s2 =>
      simp only [hstep] at h
      exact ih s2 s1 (pool_system.inv_step topology s call s2 hinv hstep) h
/-- C1: every state reached from a newly created pool by a sequence of
checkout and checkin calls, each checkin made by the caller that holds the
connection and each new connection allocated at an address that is not
live, has size within the maximum and as many idle plus held connections as
size says, the live connections being pairwise distinct; so the number of
connections held at the same time is within the maximum.  A call that aborts
the process or stays blocked ends the sequence. -/
theorem pool_size_invariant (topology : mongoc_topology_t) (sd : mongoc_server_description_t)
    (calls : List pool_call) (s : pool_system)
    (hrun : (pool_system.new topology sd).run calls = some s) :
    s.pool.size ≤ topology.max_connection_pool_size ∧
    s.pool.head.length + s.held.length = s.pool.size ∧
    s.live.Nodup ∧
    s.held.length ≤ topology.max_connection_pool_size := by
  obtain ⟨_, hle, hcount, hnd⟩ := pool_system.inv_run topology calls _ s
    (pool_system.inv_new topology sd) hrun
  exact ⟨hle, hcount, hnd, by omega⟩

/-- Witness of C1: the example calls run, and end with one connection held at
capacity one. -/
theorem pool_size_invariant_witness :
    (pool_system.new example_topology example_sd).run example_calls =
      some { pool := { mongoc_connection_pool_new example_topology example_sd with size := 1 },
             held := [(2, example_stream)] } ∧
    [(2, example_stream)].length ≤ example_topology.max_connection_pool_size :=
  ⟨by decide,
   (pool_size_invariant example_topology example_sd example_calls
      { pool := { mongoc_connection_pool_new example_topology example_sd with size := 1 },
        held := [(2, example_stream)] } (by decide)).2.2.2⟩

/-- C2: in every state reached by checkout and checkin calls in which a
connection is checked in only by its holder (who then no longer holds it), a
checkout that returns connection `c` to `caller` leaves no connection with the
address of `c` in the idle list, `c` was held by nobody before the call, and
after the call `c` is held by `caller` alone, once. -/
theorem checkout_exclusive (topology : mongoc_topology_t) (sd : mongoc_server_description_t)
    (calls : List pool_call) (s : pool_system) (caller : Nat) (env : checkout_env)
    (spurious : Nat) (c : mongoc_server_stream_t) (s1 : pool_system)
    (hrun : (pool_system.new topology sd).run calls = some s)
    (hco : s.checkout caller env spurious = some (c, s1)) :
    c ∉ s1.pool.head ∧
    (∀ d ∈ s1.pool.head, d.addr ≠ c.addr) ∧
    (∀ w d, (w, d) ∈ s.held → d.addr ≠ c.addr) ∧
    (∀ w d, (w, d) ∈ s1.held → d.addr = c.addr → w = caller ∧ d = c) ∧
    s1.held.filter (fun h => decide (h.2.addr = c.addr)) = [(caller, c)] := by
  have hinv := pool_system.inv_run topology calls _ s (pool_system.inv_new topology sd) hrun
  have hnd1 := (pool_system.inv_checkout topology s caller env spurious c s1 hinv hco).2.2.2
  obtain ⟨_, hheld, _⟩ := s.checkout_cases caller env spurious c s1 hco
  simp only [pool_system.live, hheld, List.map_cons] at hnd1
  have hnd2 := (List.perm_middle.nodup_iff).mp hnd1
  obtain ⟨hnotin, _⟩ := List.nodup_cons.mp hnd2
  simp only [List.mem_append, List.mem_map, not_or, not_exists, not_and] at hnotin
  have hidle : ∀ d ∈ s1.pool.head, d.addr ≠ c.addr := fun d hd => hnotin.1 d hd
  have hheld0 : ∀ w d, (w, d) ∈ s.held → d.addr ≠ c.addr := fun w d hd => hnotin.2 (w, d) hd
  refine ⟨fun hc => hidle c hc rfl, hidle, hheld0, ?_, ?_⟩
  · intro w d hmem haddr
    rw [hheld] at hmem
    rcases List.mem_cons.mp hmem with h1 | h1
    · simp only [Prod.mk.injEq] at h1
      exact h1
    · exact absurd haddr (hheld0 w d h1)
  · rw [hheld, List.filter_cons_of_pos (by simp)]
    congr 1
    rw [List.filter_eq_nil_iff]
    intro h hmem
    simpa using hheld0 h.1 h.2 hmem

/-- Witness of C2: after caller 1 has checked a connection out and in, caller
2 checks it out and holds it alone. -/
theorem checkout_exclusive_witness :
    [(2, example_stream)].filter (fun h => decide (h.2.addr = example_stream.addr)) =
      [(2, example_stream)] :=
  (checkout_exclusive example_topology example_sd
    [.checkout 1 (example_env 100 (some { fd := 5 })) 0, .checkin 1 example_stream]
    example_idle_system 2 (example_env 101 none) 3 example_stream
    { pool := { mongoc_connection_pool_new example_topology example_sd with size := 1 },
      held := [(2, example_stream)] } (by decide) (by decide)).2.2.2.2
/-! ## Find translation (C9, C10) -/

theorem lookup_mem_values (k : String) (v : String) :
    ∀ table : List (String × String), table.lookup k = some v → v ∈ table.map Prod.snd := by
  intro table
  induction table with
  | nil => intro h; simp at h
  | cons e t ih =>
    intro h
    obtain ⟨k0, v0⟩ := e
    simp only [List.lookup] at h
    cases hk : (k == k0) with
    | true =>
      rw [hk] at h
      simp only [Option.some.injEq] at h
      simp [h]
    | false =>
      rw [hk] at h
      exact List.mem_map.mpr (by
        obtain ⟨x, hx, hxv⟩ := List.mem_map.mp (ih h)
        exact ⟨x, List.mem_cons_of_mem _ hx, hxv⟩)

theorem translate_query_opt_ne_diskloc (k k1 : String)
    (h : translate_query_opt k = some k1) : k1 ≠ "showDiskLoc" := by
  have hall : ∀ v ∈ query_opt_table.map Prod.snd, v ≠ "showDiskLoc" := by decide
  exact hall k1 (lookup_mem_values k k1 query_opt_table h)

theorem translate_query_field_ne_diskloc (f : String × bson_value)
    (h : f.1 ≠ "showDiskLoc") : (translate_query_field f).1 ≠ "showDiskLoc" := by
  unfold translate_query_field
  cases hk : translate_query_opt f.1 with
  | none => exact h
  | some k1 => exact translate_query_opt_ne_diskloc f.1 k1 hk

theorem find_command_legacy (collection : String) (args : find_args)
    (h : bson_has_field args.query "$query" = true) :
    find_command_document collection args =
      ("find", .utf8 collection) :: (args.query.map translate_query_field ++
        find_command_projection args.fields ++ find_command_paging args ++
        find_command_flags args.flags) := by
  simp [find_command_document, find_command_query, h]

theorem mem_find_command_of_query (collection : String) (args : find_args)
    (h : bson_has_field args.query "$query" = true) (f : String × bson_value)
    (hf : f ∈ args.query) :
    translate_query_field f ∈ find_command_document collection args := by
  rw [find_command_legacy collection args h]
  refine List.mem_cons_of_mem _ ?_
  simp only [List.append_assoc]
  exact List.mem_append_left _ (List.mem_map_of_mem _ hf)

theorem mem_find_command_of_flag (collection : String) (args : find_args) (flag : Nat)
    (name : String) (hflag : args.flags &&& flag ≠ 0)
    (hin : ∀ x, x ∈ find_command_flag args.flags flag name → x ∈ find_command_flags args.flags) :
    (name, bson_value.bool true) ∈ find_command_document collection args := by
  have h1 : (name, bson_value.bool true) ∈ find_command_flag args.flags flag name := by
    simp [find_command_flag, hflag]
  simp only [find_command_document]
  refine List.mem_cons_of_mem _ ?_
  exact List.mem_append_right _ (hin _ h1)

/-- C9: for every query document that starts with `$query: F`, whatever follows
it and whatever `F` is (a document with a key named `filter` included),
the translation for a server of max wire version 3 is an OP_QUERY whose query
document is the input document itself, and the translation for a server of
max wire version 4 is a command whose document starts with `find: collection`,
`filter: F`, followed by the translation of the remaining fields. -/
theorem dollar_query_translation (database collection : String) (args : find_args)
    (F : bson_value) (rest : bson_t) :
    query_translate 3 database collection { args with query := ("$query", F) :: rest } =
      .ok (.LegacyQuery (database ++ "." ++ collection)
        (args.flags ||| MONGOC_QUERY_SLAVE_OK) args.skip
        (number_to_return args.limit args.batch_size) (("$query", F) :: rest) args.fields) ∧
    query_translate 4 database collection { args with query := ("$query", F) :: rest } =
      .ok (.CommandQuery database MONGOC_QUERY_SLAVE_OK
        (("find", .utf8 collection) :: ("filter", F) ::
          (rest.map translate_query_field ++ find_command_projection args.fields ++
            find_command_paging args ++ find_command_flags args.flags))) ∧
    query_translate 4 database collection
        { args with query := [("$query", .document [("filter", .int32 2)])] } =
      .ok (.CommandQuery database MONGOC_QUERY_SLAVE_OK
        (("find", .utf8 collection) :: ("filter", .document [("filter", .int32 2)]) ::
          (find_command_projection args.fields ++
            find_command_paging args ++ find_command_flags args.flags))) := by
  have hv3 : capability_select 3 = .LegacyOpcode := by decide
  have hv4 : capability_select 4 = .Command := by decide
  have hq : ∀ (G : bson_value) (r : bson_t),
      bson_has_field (("$query", G) :: r) "$query" = true := by
    intro G r
    simp [bson_has_field]
  have hf : ∀ G : bson_value, translate_query_field ("$query", G) = ("filter", G) := by
    intro G
    rfl
  refine ⟨?_, ?_, ?_⟩
  · simp [query_translate, hv3, hq]
  · simp [query_translate, hv4, find_command_document, find_command_query, hq, hf,
      find_command_paging]
  · simp [query_translate, hv4, find_command_document, find_command_query, hq, hf,
      find_command_paging]

theorem find_command_query_ne_diskloc (query : bson_t)
    (h : ∀ f ∈ query, f.1 ≠ "showDiskLoc") :
    ∀ f ∈ find_command_query query, f.1 ≠ "showDiskLoc" := by
  intro f hf
  simp only [find_command_query] at hf
  split_ifs at hf
  · obtain ⟨g, hg, rfl⟩ := List.mem_map.mp hf
    exact translate_query_field_ne_diskloc g (h g hg)
  · exact h f hf
  · simp only [List.mem_singleton] at hf
    subst hf
    exact (show ("filter" : String) ≠ "showDiskLoc" by decide)

/-- C10: in the command sent to a command-capable server, whatever the query
document is (legacy, bare filter or empty), each wire flag that is set is
emitted as a `true` boolean field: `tailable`, `oplogReplay`,
`noCursorTimeout`, `awaitData`, and `partial` under the name
`allowPartialResults`.  For a legacy query (one with a `$query` key), each
modifier of the mapping table is emitted under the command name of the table
with the value it had: `$comment`, `$hint`, `$min`, `$max`, `$returnKey`,
`$snapshot`, `$maxScan` and `$maxTimeMS` without the `$`, `$orderby` as
`sort`, `$showDiskLoc` as `showRecordId`.  No field named `showDiskLoc` is
emitted unless the caller wrote a field of that very name. -/
theorem modifier_mapping_table (database collection : String) (args : find_args) :
    query_translate 4 database collection args =
      .ok (.CommandQuery database MONGOC_QUERY_SLAVE_OK
        (find_command_document collection args)) ∧
    (args.flags &&& MONGOC_QUERY_TAILABLE_CURSOR ≠ 0 →
      ("tailable", .bool true) ∈ find_command_document collection args) ∧
    (args.flags &&& MONGOC_QUERY_OPLOG_REPLAY ≠ 0 →
      ("oplogReplay", .bool true) ∈ find_command_document collection args) ∧
    (args.flags &&& MONGOC_QUERY_NO_CURSOR_TIMEOUT ≠ 0 →
      ("noCursorTimeout", .bool true) ∈ find_command_document collection args) ∧
    (args.flags &&& MONGOC_QUERY_AWAIT_DATA ≠ 0 →
      ("awaitData", .bool true) ∈ find_command_document collection args) ∧
    (args.flags &&& MONGOC_QUERY_PARTIAL ≠ 0 →
      ("allowPartialResults", .bool true) ∈ find_command_document collection args) ∧
    ((∀ f ∈ args.query, f.1 ≠ "showDiskLoc") →
      ∀ f ∈ find_command_document collection args, f.1 ≠ "showDiskLoc") ∧
    (bson_has_field args.query "$query" = true →
      (∀ v, ("$comment", v) ∈ args.query →
        ("comment", v) ∈ find_command_document collection args) ∧
      (∀ v, ("$hint", v) ∈ args.query →
        ("hint", v) ∈ find_command_document collection args) ∧
      (∀ v, ("$min", v) ∈ args.query →
        ("min", v) ∈ find_command_document collection args) ∧
      (∀ v, ("$max", v) ∈ args.query →
        ("max", v) ∈ find_command_document collection args) ∧
      (∀ v, ("$returnKey", v) ∈ args.query →
        ("returnKey", v) ∈ find_command_document collection args) ∧
      (∀ v, ("$snapshot", v) ∈ args.query →
        ("snapshot", v) ∈ find_command_document collection args) ∧
      (∀ v, ("$maxScan", v) ∈ args.query →
        ("maxScan", v) ∈ find_command_document collection args) ∧
      (∀ v, ("$maxTimeMS", v) ∈ args.query →
        ("maxTimeMS", v) ∈ find_command_document collection args) ∧
      (∀ v, ("$orderby", v) ∈ args.query →
        ("sort", v) ∈ find_command_document collection args) ∧
      (∀ v, ("$showDiskLoc", v) ∈ args.query →
        ("showRecordId", v) ∈ find_command_document collection args)) := by
  have hv4 : capability_select 4 = .Command := by decide
  refine ⟨by simp [query_translate, hv4], ?_, ?_, ?_, ?_, ?_, ?_, ?_⟩
  · exact fun h => mem_find_command_of_flag collection args _ _ h
      (fun x hx => by simp only [find_command_flags, List.mem_append]; tauto)
  · exact fun h => mem_find_command_of_flag collection args _ _ h
      (fun x hx => by simp only [find_command_flags, List.mem_append]; tauto)
  · exact fun h => mem_find_command_of_flag collection args _ _ h
      (fun x hx => by simp only [find_command_flags, List.mem_append]; tauto)
  · exact fun h => mem_find_command_of_flag collection args _ _ h
      (fun x hx => by simp only [find_command_flags, List.mem_append]; tauto)
  · exact fun h => mem_find_command_of_flag collection args _ _ h
      (fun x hx => by simp only [find_command_flags, List.mem_append]; tauto)
  · intro hq f hf
    simp only [find_command_document, List.mem_cons, List.mem_append] at hf
    rcases hf with rfl | ((hquery | hproj) | hpage) | hflags
    · simp
    · exact find_command_query_ne_diskloc args.query hq f hquery
    · cases hfields : args.fields with
      | none => simp [find_command_projection, hfields] at hproj
      | some p =>
        simp only [find_command_projection, hfields, List.mem_singleton] at hproj
        subst hproj
        simp
    · simp only [find_command_paging, List.mem_append] at hpage
      rcases hpage with (h1 | h1) | h1 <;>
        · split_ifs at h1
          · simp only [List.mem_singleton] at h1
            subst h1
            simp
          · simp at h1
    · simp only [find_command_flags, find_command_flag, List.mem_append] at hflags
      rcases hflags with (((h1 | h1) | h1) | h1) | h1 <;>
        · split_ifs at h1
          · simp only [List.mem_singleton] at h1
            subst h1
            simp
          · simp at h1
  · intro hlegacy
    have hrow : ∀ (k k1 : String) (v : bson_value),
        translate_query_field (k, v) = (k1, v) → (k, v) ∈ args.query →
        (k1, v) ∈ find_command_document collection args := by
      intro k k1 v hk hmem
      rw [← hk]
      exact mem_find_command_of_query collection args hlegacy (k, v) hmem
    refine ⟨?_, ?_, ?_, ?_, ?_, ?_, ?_, ?_, ?_, ?_⟩
    · exact fun v => hrow _ _ v (by rfl)
    · exact fun v => hrow _ _ v (by rfl)
    · exact fun v => hrow _ _ v (by rfl)
    · exact fun v => hrow _ _ v (by rfl)
    · exact fun v => hrow _ _ v (by rfl)
    · exact fun v => hrow _ _ v (by rfl)
    · exact fun v => hrow _ _ v (by rfl)
    · exact fun v => hrow _ _ v (by rfl)
    · exact fun v => hrow _ _ v (by rfl)
    · exact fun v => hrow _ _ v (by rfl)

/-- Witness of C10: the tailable round of `test_query_flags`, whose query is
empty, carries `tailable: true`; the query of `test_diskloc` is a legacy query
and its command document carries `showRecordId: true`. -/
theorem modifier_mapping_table_witness :
    bson_has_field example_flags_args.query "$query" = false ∧
    ("tailable", bson_value.bool true) ∈
      find_command_document "collection" example_flags_args ∧
    bson_has_field example_diskloc_args.query "$query" = true ∧
    ("showRecordId", bson_value.bool true) ∈
      find_command_document "collection" example_diskloc_args :=
  ⟨by decide,
   (modifier_mapping_table "db" "collection" example_flags_args).2.1 (by decide),
   by decide,
   ((modifier_mapping_table "db" "collection" example_diskloc_args).2.2.2.2.2.2.2
     (by decide)).2.2.2.2.2.2.2.2.2
     (.bool true) (by simp [example_diskloc_args])⟩

/-! ## Paging and flags of the translation (C11, C12, C13) -/

theorem query_translate_legacy (max_wire_version : Int) (database collection : String)
    (args : find_args) (hv : max_wire_version < WIRE_VERSION_FIND_CMD)
    (hq : is_command_form args.query = false) :
    query_translate max_wire_version database collection args =
      .ok (.LegacyQuery (database ++ "." ++ collection)
        (args.flags ||| MONGOC_QUERY_SLAVE_OK) args.skip
        (number_to_return args.limit args.batch_size) args.query args.fields) := by
  have hsel : capability_select max_wire_version = .LegacyOpcode := by
    simp only [capability_select]
    rw [if_neg (by omega)]
  simp only [is_command_form] at hq
  simp [query_translate, hsel, hq]

theorem query_translate_command (max_wire_version : Int) (database collection : String)
    (args : find_args) (hv : WIRE_VERSION_FIND_CMD ≤ max_wire_version) :
    query_translate max_wire_version database collection args =
      .ok (.CommandQuery database MONGOC_QUERY_SLAVE_OK
        (find_command_document collection args)) := by
  have hsel : capability_select max_wire_version = .Command := by
    simp only [capability_select]
    rw [if_pos hv]
  simp [query_translate, hsel]

/-- C11: for every limit and batch size, the legacy request sent to a server
below the command threshold carries a `number_to_return` that is the limit
when the limit is negative, the limit when the limit is positive and the
batch size is 0 or above the limit, and the batch size in every other case;
so limit 2 with batch size 0 gives 2, and limit 0 with batch size 2 gives 2. -/
theorem legacy_number_to_return (max_wire_version : Int) (database collection : String)
    (args : find_args) (hv : max_wire_version < WIRE_VERSION_FIND_CMD)
    (hq : is_command_form args.query = false) :
    ∃ n : Int,
      query_translate max_wire_version database collection args =
        .ok (.LegacyQuery (database ++ "." ++ collection)
          (args.flags ||| MONGOC_QUERY_SLAVE_OK) args.skip n args.query args.fields) ∧
      (args.limit < 0 → n = args.limit) ∧
      (0 < args.limit → (args.batch_size = 0 ∨ args.limit < (args.batch_size : Int)) →
        n = args.limit) ∧
      (¬ args.limit < 0 →
        ¬ (0 < args.limit ∧ (args.batch_size = 0 ∨ args.limit < (args.batch_size : Int))) →
        n = (args.batch_size : Int)) ∧
      number_to_return 2 0 = 2 ∧ number_to_return 0 2 = 2 := by
  refine ⟨number_to_return args.limit args.batch_size,
    query_translate_legacy max_wire_version database collection args hv hq, ?_, ?_, ?_,
    by decide, by decide⟩
  · intro h
    simp [number_to_return, h]
  · intro h1 h2
    have h3 : ¬ args.limit < 0 := by omega
    simp [number_to_return, h3, h1, h2]
  · intro h1 h2
    simp only [number_to_return, if_neg h1, if_neg h2]

/-- Witness of C11: `test_limit` against a server of wire version 3. -/
theorem legacy_number_to_return_witness :
    ∃ n : Int,
      query_translate 3 "db" "collection" example_limit_args =
        .ok (.LegacyQuery ("db" ++ "." ++ "collection")
          (example_limit_args.flags ||| MONGOC_QUERY_SLAVE_OK) example_limit_args.skip n
          example_limit_args.query example_limit_args.fields) ∧
      (0 < example_limit_args.limit →
        (example_limit_args.batch_size = 0 ∨
          example_limit_args.limit < (example_limit_args.batch_size : Int)) →
        n = example_limit_args.limit) := by
  obtain ⟨n, h1, _, h3, _⟩ :=
    legacy_number_to_return 3 "db" "collection" example_limit_args (by decide) (by decide)
  exact ⟨n, h1, h3⟩
theorem translate_query_field_not_paging (f : String × bson_value)
    (h : f.1 ∉ paging_fields) : (translate_query_field f).1 ∉ paging_fields := by
  unfold translate_query_field
  cases hk : translate_query_opt f.1 with
  | none => exact h
  | some k1 =>
    have hall : ∀ v ∈ query_opt_table.map Prod.snd, v ∉ paging_fields := by decide
    exact hall k1 (lookup_mem_values f.1 k1 query_opt_table hk)

theorem mem_find_command_of_paging (collection : String) (args : find_args)
    (f : String × bson_value) (hf : f ∈ find_command_paging args) :
    f ∈ find_command_document collection args := by
  simp only [find_command_document]
  refine List.mem_cons_of_mem _ ?_
  exact List.mem_append_left _ (List.mem_append_right _ hf)

theorem find_command_query_not_paging (query : bson_t)
    (h : ∀ f ∈ query, f.1 ∉ paging_fields) :
    ∀ f ∈ find_command_query query, f.1 ∉ paging_fields := by
  intro f hf
  simp only [find_command_query] at hf
  split_ifs at hf
  · obtain ⟨g, hg, rfl⟩ := List.mem_map.mp hf
    exact translate_query_field_not_paging g (h g hg)
  · exact h f hf
  · simp only [List.mem_singleton] at hf
    subst hf
    exact (show ("filter" : String) ∉ paging_fields by decide)

/-- C12: in the command sent to a command-capable server, a non-zero skip,
limit or batch size is carried as `skip`, `limit` or `batchSize` with a 64-bit
integer of the same numeric value, which fits 64 bits whenever the argument
fits its 32-bit parameter; every paging field the translator emits is a
64-bit integer; and when the caller's query document has no field of these
names itself, the command document has no other field of these names, so none
that is a 32-bit integer. -/
theorem paging_fields_are_int64 (max_wire_version : Int) (database collection : String)
    (args : find_args) (hv : WIRE_VERSION_FIND_CMD ≤ max_wire_version) :
    query_translate max_wire_version database collection args =
      .ok (.CommandQuery database MONGOC_QUERY_SLAVE_OK
        (find_command_document collection args)) ∧
    (args.skip ≠ 0 →
      ("skip", .int64 (args.skip : Int)) ∈ find_command_document collection args) ∧
    (args.limit ≠ 0 →
      ("limit", .int64 args.limit) ∈ find_command_document collection args) ∧
    (args.batch_size ≠ 0 →
      ("batchSize", .int64 (args.batch_size : Int)) ∈ find_command_document collection args) ∧
    (args.skip < 2 ^ 32 → int64_fits (args.skip : Int)) ∧
    (-(2 ^ 31 : Int) ≤ args.limit → args.limit < (2 ^ 32 : Int) → int64_fits args.limit) ∧
    (args.batch_size < 2 ^ 32 → int64_fits (args.batch_size : Int)) ∧
    (∀ f ∈ find_command_paging args,
      f = ("skip", .int64 (args.skip : Int)) ∨ f = ("limit", .int64 args.limit) ∨
      f = ("batchSize", .int64 (args.batch_size : Int))) ∧
    ((∀ f ∈ args.query, f.1 ∉ paging_fields) →
      ∀ f ∈ find_command_document collection args, f.1 ∈ paging_fields →
        (f = ("skip", .int64 (args.skip : Int)) ∨ f = ("limit", .int64 args.limit) ∨
         f = ("batchSize", .int64 (args.batch_size : Int))) ∧ ∀ v, f.2 ≠ .int32 v) := by
  have hpaging : ∀ f ∈ find_command_paging args,
      f = ("skip", .int64 (args.skip : Int)) ∨ f = ("limit", .int64 args.limit) ∨
      f = ("batchSize", .int64 (args.batch_size : Int)) := by
    intro f hf
    simp only [find_command_paging, List.mem_append] at hf
    rcases hf with (h1 | h1) | h1
    · split_ifs at h1
      · exact Or.inl (List.mem_singleton.mp h1)
      · simp at h1
    · split_ifs at h1
      · exact Or.inr (Or.inl (List.mem_singleton.mp h1))
      · simp at h1
    · split_ifs at h1
      · exact Or.inr (Or.inr (List.mem_singleton.mp h1))
      · simp at h1
  refine ⟨query_translate_command max_wire_version database collection args hv, ?_, ?_, ?_,
    ?_, ?_, ?_, hpaging, ?_⟩
  · intro h
    exact mem_find_command_of_paging collection args _ (by simp [find_command_paging, h])
  · intro h
    exact mem_find_command_of_paging collection args _ (by simp [find_command_paging, h])
  · intro h
    exact mem_find_command_of_paging collection args _ (by simp [find_command_paging, h])
  · intro h
    constructor <;> omega
  · intro h1 h2
    constructor <;> omega
  · intro h
    constructor <;> omega
  · intro hq f hf hname
    have hcase : f ∈ find_command_paging args := by
      simp only [find_command_document, List.mem_cons, List.mem_append] at hf
      rcases hf with rfl | ((hquery | hproj) | hpage) | hflags
      · exact absurd hname (show ("find" : String) ∉ paging_fields by decide)
      · exact absurd hname (find_command_query_not_paging args.query hq f hquery)
      · cases hfields : args.fields with
        | none => simp [find_command_projection, hfields] at hproj
        | some p =>
          simp only [find_command_projection, hfields, List.mem_singleton] at hproj
          subst hproj
          exact absurd hname (show ("projection" : String) ∉ paging_fields by decide)
      · exact hpage
      · simp only [find_command_flags, find_command_flag, List.mem_append] at hflags
        rcases hflags with (((h1 | h1) | h1) | h1) | h1 <;>
          · split_ifs at h1
            · simp only [List.mem_singleton] at h1
              subst h1
              exact absurd hname (by decide)
            · simp at h1
    refine ⟨hpaging f hcase, ?_⟩
    intro v hv32
    rcases hpaging f hcase with h | h | h <;>
      · rw [h] at hv32
        cases hv32

/-- Witness of C12: `test_skip` against a server of wire version 4. -/
theorem paging_fields_are_int64_witness :
    ("skip", bson_value.int64 1) ∈ find_command_document "collection" example_skip_args :=
  (paging_fields_are_int64 4 "db" "collection" example_skip_args (by decide)).2.1 (by decide)

/-- C13: whatever flags the caller gives, the legacy request sent to a server
below the command threshold has the caller's flags with the slave-ok bit set:
bit 2 is on and every other bit is as the caller gave it; and the command
sent to a command-capable server has exactly the slave-ok flag in its
header. -/
theorem slave_ok_always_set (legacy_version command_version : Int)
    (database collection : String) (args : find_args)
    (hlegacy : legacy_version < WIRE_VERSION_FIND_CMD)
    (hcommand : WIRE_VERSION_FIND_CMD ≤ command_version)
    (hq : is_command_form args.query = false) :
    query_translate legacy_version database collection args =
      .ok (.LegacyQuery (database ++ "." ++ collection)
        (args.flags ||| MONGOC_QUERY_SLAVE_OK) args.skip
        (number_to_return args.limit args.batch_size) args.query args.fields) ∧
    (args.flags ||| MONGOC_QUERY_SLAVE_OK).testBit 2 = true ∧
    (∀ i, i ≠ 2 → (args.flags ||| MONGOC_QUERY_SLAVE_OK).testBit i = args.flags.testBit i) ∧
    (args.flags < 2 ^ 32 → args.flags ||| MONGOC_QUERY_SLAVE_OK < 2 ^ 32) ∧
    query_translate command_version database collection args =
      .ok (.CommandQuery database MONGOC_QUERY_SLAVE_OK
        (find_command_document collection args)) := by
  have h4 : MONGOC_QUERY_SLAVE_OK = 2 ^ 2 := by decide
  refine ⟨query_translate_legacy legacy_version database collection args hlegacy hq, ?_, ?_, ?_,
    query_translate_command command_version database collection args hcommand⟩
  · rw [Nat.testBit_or, h4, Nat.testBit_two_pow_self]
    simp
  · intro i hi
    rw [Nat.testBit_or, h4, Nat.testBit_two_pow_of_ne (Ne.symm hi)]
    simp
  · intro h
    exact Nat.or_lt_two_pow h (by rw [h4]; decide)

/-- Witness of C13: the tailable round of `test_query_flags`, at wire versions
3 and 4. -/
theorem slave_ok_always_set_witness :
    query_translate 3 "db" "collection" example_flags_args =
      .ok (.LegacyQuery ("db" ++ "." ++ "collection")
        (example_flags_args.flags ||| MONGOC_QUERY_SLAVE_OK) example_flags_args.skip
        (number_to_return example_flags_args.limit example_flags_args.batch_size)
        example_flags_args.query example_flags_args.fields) ∧
    (example_flags_args.flags ||| MONGOC_QUERY_SLAVE_OK) = 6 :=
  ⟨(slave_ok_always_set 3 4 "db" "collection" example_flags_args (by decide) (by decide)
      (by decide)).1, by decide⟩
/-! ## Lock discipline (C14) -/

theorem mutex_after_append (held : Bool) (a b : List pool_event) :
    mutex_after held (a ++ b) = mutex_after (mutex_after held a) b := by
  induction a generalizing held with
  | nil => rfl
  | cons e es ih =>
    rw [List.cons_append]
    simp only [mutex_after]
    exact ih _

theorem mutex_discipline_append (held : Bool) (a b : List pool_event) :
    mutex_discipline held (a ++ b) =
      (mutex_discipline held a && mutex_discipline (mutex_after held a) b) := by
  induction a generalizing held with
  | nil => simp [mutex_discipline, mutex_after]
  | cons e es ih =>
    rw [List.cons_append]
    simp only [mutex_discipline, mutex_after]
    rw [ih, Bool.and_assoc]

/-- In a run that keeps the discipline, each event is allowed in the state the
mutex is in after the events before it. -/
theorem mutex_discipline_at (held : Bool) (pre post : List pool_event) (e : pool_event)
    (h : mutex_discipline held (pre ++ e :: post) = true) :
    e.mutex_ok (mutex_after held pre) = true := by
  rw [mutex_discipline_append] at h
  simp only [mutex_discipline, Bool.and_eq_true] at h
  exact h.2.1

theorem mutex_ok_shared (held : Bool) (e : pool_event) (hok : e.mutex_ok held = true)
    (he : e.is_shared_access = true) : held = true := by
  cases e <;> simp_all [pool_event.mutex_ok, pool_event.is_shared_access]

theorem mutex_ok_connect (held : Bool) (e : pool_event) (hok : e.mutex_ok held = true)
    (he : e.is_connect = true) : held = false := by
  cases e <;> simp_all [pool_event.mutex_ok, pool_event.is_connect]

/-- From the label `again`, entered with the mutex held, every run keeps the
discipline. -/
theorem checkout_again_discipline (env : checkout_env) (topology : mongoc_topology_t)
    (server_id : Nat) (sd : Option mongoc_server_description_t) (error : bson_error_t)
    (ws : List mongoc_connection_pool_t) :
    ∀ pool : mongoc_connection_pool_t,
      mutex_discipline true (checkout_again env topology server_id sd error ws pool).trace
        = true := by
  have hnow : ∀ (ws : List mongoc_connection_pool_t) (pool : mongoc_connection_pool_t),
      (pool.head ≠ [] ∨ pool.size < topology.max_connection_pool_size) →
      mutex_discipline true (checkout_again env topology server_id sd error ws pool).trace
        = true := by
    intro ws pool hp
    cases hhead : pool.head with
    | cons c rest =>
      rw [checkout_again_idle env topology server_id sd error ws pool c rest hhead]
      rfl
    | nil =>
      have hsize : pool.size < topology.max_connection_pool_size := by
        rcases hp with h | h
        · exact absurd hhead h
        · exact h
      cases hconn : (env.mongoc_client_connect_tcp topology.connect_timeout_msec
          (env._mongoc_topology_host_by_id topology server_id error).1
          (env._mongoc_topology_host_by_id topology server_id error).2).1 with
      | none =>
        rw [checkout_again_refused env topology server_id sd error ws pool hhead hsize hconn]
        rfl
      | some s =>
        rw [checkout_again_connected env topology server_id sd error ws pool s hhead hsize hconn]
        rfl
  induction ws with
  | nil =>
    intro pool
    by_cases hp : pool.head ≠ [] ∨ pool.size < topology.max_connection_pool_size
    · exact hnow [] pool hp
    · simp only [not_or, not_not] at hp
      rw [checkout_again_wait_nil env topology server_id sd error pool hp.1 hp.2]
      rfl
  | cons woken rest ih =>
    intro pool
    by_cases hp : pool.head ≠ [] ∨ pool.size < topology.max_connection_pool_size
    · exact hnow (woken :: rest) pool hp
    · simp only [not_or, not_not] at hp
      rw [checkout_again_wait_cons env topology server_id sd error woken rest pool hp.1 hp.2]
      simp only [checkout_outcome.after]
      rw [mutex_discipline_append]
      simp only [Bool.and_eq_true]
      exact ⟨rfl, ih woken⟩

theorem checkout_discipline (env : checkout_env) (ws : List mongoc_connection_pool_t)
    (pool : mongoc_connection_pool_t) :
    mutex_discipline false (mongoc_checkout_connection env ws pool).trace = true := by
  simp only [mongoc_checkout_connection, checkout_outcome.after]
  rw [mutex_discipline_append]
  simp only [Bool.and_eq_true]
  exact ⟨rfl, checkout_again_discipline env _ _ _ _ ws pool⟩

/-- C14: on every run of checkout (whatever the collaborators answer and
whatever pools the wake-ups find) and of checkin, entered with the mutex free,
every event is allowed where it happens; so each read or write of the size or
of the idle list comes after a lock that has not been released, and the
transport connect of checkout comes when the mutex is not held.  The run of
the first checkout on the example pool does connect, and does so between an
unlock and the next lock. -/
theorem mutex_protects_pool (env : checkout_env) (wakeups : List mongoc_connection_pool_t)
    (pool : mongoc_connection_pool_t) (c : mongoc_server_stream_t) :
    mutex_discipline false (mongoc_checkout_connection env wakeups pool).trace = true ∧
    mutex_discipline false (mongoc_checkin_connection pool c).trace = true ∧
    (∀ pre e post, (mongoc_checkout_connection env wakeups pool).trace = pre ++ e :: post →
      (e.is_shared_access = true → mutex_after false pre = true) ∧
      (e.is_connect = true → mutex_after false pre = false)) ∧
    (∀ pre e post, (mongoc_checkin_connection pool c).trace = pre ++ e :: post →
      e.is_shared_access = true → mutex_after false pre = true) ∧
    (mongoc_checkout_connection (example_env 100 (some { fd := 5 })) []
        (mongoc_connection_pool_new example_topology example_sd)).trace =
      [.mutex_lock, .read_server_id, .read_topology, .server_by_id 7, .read_head, .read_size,
       .write_size, .mutex_unlock, .host_by_id 7,
       .connect_tcp 10000 (some { host := "localhost", port := 27017 }),
       .server_stream_new, .mutex_lock, .mutex_unlock] := by
  have hco := checkout_discipline env wakeups pool
  have hci : mutex_discipline false (mongoc_checkin_connection pool c).trace = true := rfl
  refine ⟨hco, hci, ?_, ?_, by decide⟩
  · intro pre e post htrace
    rw [htrace] at hco
    have hok := mutex_discipline_at false pre post e hco
    exact ⟨mutex_ok_shared _ e hok, mutex_ok_connect _ e hok⟩
  · intro pre e post htrace
    rw [htrace] at hci
    exact mutex_ok_shared _ e (mutex_discipline_at false pre post e hci)
/-! ## Double checkin (C15) -/

/-- C15: checkin makes no ownership or duplicate test.  For every pool and
stream, two checkins of the stream in a row leave size as it was and put the
stream twice at the head of the idle list, and the next two checkouts both
return it.  On the example pool, reached by one checkout of caller 1 (size 1,
the stream held once), the double checkin gives two idle entries and nothing
held, which is more than size; callers 2 and 3 then both check the same
stream out and hold it at the same time, at capacity one. -/
theorem double_checkin_corrupts :
    (∀ (pool : mongoc_connection_pool_t) (c : mongoc_server_stream_t),
      (double_checkin pool c).size = pool.size ∧
      (double_checkin pool c).head = c :: c :: pool.head) ∧
    (∀ (pool : mongoc_connection_pool_t) (c : mongoc_server_stream_t)
      (env1 env2 : checkout_env) (ws1 ws2 : List mongoc_connection_pool_t),
      (mongoc_checkout_connection env1 ws1 (double_checkin pool c)).result = .returned c ∧
      (mongoc_checkout_connection env2 ws2
        (mongoc_checkout_connection env1 ws1 (double_checkin pool c)).pool).result =
          .returned c ∧
      (mongoc_checkout_connection env2 ws2
        (mongoc_checkout_connection env1 ws1 (double_checkin pool c)).pool).pool = pool) ∧
    (pool_system.new example_topology example_sd).run
        [.checkout 1 (example_env 100 (some { fd := 5 })) 0] = some example_held_system ∧
    example_double_system.pool.size = 1 ∧
    example_double_system.pool.head = [example_stream, example_stream] ∧
    example_double_system.held = [] ∧
    example_double_system.pool.size <
      example_double_system.pool.head.length + example_double_system.held.length ∧
    (example_double_system.checkout 2 (example_env 101 none) 0).map (fun r => r.1) =
      some example_stream ∧
    (((example_double_system.checkout 2 (example_env 101 none) 0).bind
        (fun r => r.2.checkout 3 (example_env 102 none) 0)).map (fun r => (r.1, r.2.held))) =
      some (example_stream, [(3, example_stream), (2, example_stream)]) := by
  refine ⟨fun pool c => ⟨rfl, rfl⟩, ?_, by decide, by decide, by decide, by decide, by decide,
    by decide, by decide⟩
  intro pool c env1 env2 ws1 ws2
  have h1 := checkout_outcome_of_idle env1 ws1 (double_checkin pool c) c (c :: pool.head) rfl
  have h2 := checkout_outcome_of_idle env2 ws2
    { double_checkin pool c with head := c :: pool.head } c pool.head rfl
  rw [h1.2]
  exact ⟨h1.1, h2.1, by rw [h2.2]; rfl⟩

end Mongoc
